import Mathlib

/-!
Verification development for the Word-document MCP server's S3 resolution core
(`word_document_server/utils/s3_utils.py`, `word_document_server/utils/file_utils.py`,
`word_document_server/tools/document_tools.py`).

Python strings are modelled as `List Char`; `os`/`tempfile`/`boto3` effects are
modelled as explicit state passing over an `FS` record together with an
environment (`World`) of oracles for the outcomes of the S3 transport and the
local filesystem.  Every definition is translated from the source file it names
in its doc comment.
-/

set_option maxHeartbeats 1000000

abbrev Str := List Char

/-! ### Generic list lemmas used by the development -/

theorem isPrefixOf_exists_append {a s : Str} (h : a.isPrefixOf s = true) :
    ∃ r, s = a ++ r := by
  induction a generalizing s with
  | nil => exact ⟨s, rfl⟩
  | cons x xs ih =>
    cases s with
    | nil => simp [List.isPrefixOf] at h
    | cons y ys =>
      simp only [List.isPrefixOf, Bool.and_eq_true, beq_iff_eq] at h
      obtain ⟨r, hr⟩ := ih h.2
      exact ⟨r, by simp [h.1, hr]⟩

theorem append_isPrefixOf (a r : Str) : a.isPrefixOf (a ++ r) = true := by
  induction a with
  | nil => simp [List.isPrefixOf]
  | cons x xs ih => simp [List.isPrefixOf, ih]

theorem mem_of_mem_takeWhile {p : Char → Bool} {l : Str} {c : Char}
    (h : c ∈ l.takeWhile p) : c ∈ l := by
  induction l with
  | nil => simp [List.takeWhile] at h
  | cons x xs ih =>
    rw [List.takeWhile_cons] at h
    by_cases hp : p x = true
    · simp [hp] at h
      rcases h with h | h
      · simp [h]
      · exact List.mem_cons_of_mem _ (ih h)
    · simp [hp] at h

theorem takeWhile_sat {p : Char → Bool} {l : Str} {c : Char}
    (h : c ∈ l.takeWhile p) : p c = true := by
  induction l with
  | nil => simp [List.takeWhile] at h
  | cons x xs ih =>
    rw [List.takeWhile_cons] at h
    by_cases hp : p x = true
    · simp [hp] at h
      rcases h with h | h
      · simpa [h] using hp
      · exact ih h
    · simp [hp] at h

theorem mem_of_mem_dropWhile {p : Char → Bool} {l : Str} {c : Char}
    (h : c ∈ l.dropWhile p) : c ∈ l := by
  induction l with
  | nil => simp [List.dropWhile] at h
  | cons x xs ih =>
    rw [List.dropWhile_cons] at h
    by_cases hp : p x = true
    · simp only [hp, if_pos] at h
      exact List.mem_cons_of_mem _ (ih h)
    · simp only [hp] at h
      simpa using h

theorem takeWhile_eq_self_of_sat {p : Char → Bool} {l : Str}
    (h : ∀ c ∈ l, p c = true) : l.takeWhile p = l := by
  induction l with
  | nil => rfl
  | cons x xs ih =>
    rw [List.takeWhile_cons, if_pos (h x (by simp))]
    rw [ih fun c hc => h c (List.mem_cons_of_mem _ hc)]

theorem dropWhile_append_of_ne_nil {p : Char → Bool} {a : Str} (b : Str)
    {q : Char} {qs : Str} (h : a.dropWhile p = q :: qs) :
    (a ++ b).dropWhile p = q :: (qs ++ b) := by
  induction a with
  | nil => simp [List.dropWhile] at h
  | cons x xs ih =>
    rw [List.dropWhile_cons] at h
    rw [List.cons_append, List.dropWhile_cons]
    by_cases hp : p x = true
    · simp only [hp, if_pos] at h ⊢
      exact ih h
    · simp only [hp] at h ⊢
      simp at h
      simp [h.1, h.2]

theorem dropWhile_append_of_nil {p : Char → Bool} {a : Str} (b : Str)
    (h : a.dropWhile p = []) : (a ++ b).dropWhile p = b.dropWhile p := by
  induction a with
  | nil => rfl
  | cons x xs ih =>
    rw [List.dropWhile_cons] at h
    rw [List.cons_append, List.dropWhile_cons]
    by_cases hp : p x = true
    · simp only [hp, if_pos] at h ⊢
      exact ih h
    · simp [hp] at h

theorem head_dropWhile_false {p : Char → Bool} {l : Str} {q : Char} {qs : Str}
    (h : l.dropWhile p = q :: qs) : p q = false := by
  induction l with
  | nil => simp [List.dropWhile] at h
  | cons x xs ih =>
    rw [List.dropWhile_cons] at h
    by_cases hp : p x = true
    · simp only [hp, if_pos] at h
      exact ih h
    · simp only [hp] at h
      simp at h
      rw [← h.1]
      simpa using hp

theorem exists_last_occurrence {l : Str} {c : Char} (h : c ∈ l) :
    ∃ a b, l = a ++ c :: b ∧ c ∉ b := by
  induction l with
  | nil => simp at h
  | cons x xs ih =>
    by_cases hx : c ∈ xs
    · obtain ⟨a, b, hab, hnb⟩ := ih hx
      exact ⟨x :: a, b, by simp [hab], hnb⟩
    · have : x = c := by
        rcases List.mem_cons.mp h with h' | h'
        · exact h'.symm
        · exact absurd h' hx
      exact ⟨[], xs, by simp [this], hx⟩

/-! ### Python string / os.path primitives -/

/-- Python `s.endswith(suffix)`. -/
def pyEndsWith (s suffix : Str) : Bool := suffix.isSuffixOf s

/-- Python `s.rfind(c)`: index of the last occurrence of `c` in `s`, `-1` if absent. -/
def rfindChar (s : Str) (c : Char) : Int :=
  match s with
  | [] => -1
  | a :: rest =>
    let r := rfindChar rest c
    if 0 ≤ r then r + 1
    else if a = c then 0 else -1

theorem rfindChar_nonneg_of_mem {s : Str} {c : Char} (h : c ∈ s) :
    0 ≤ rfindChar s c := by
  induction s with
  | nil => simp at h
  | cons a rest ih =>
    rw [rfindChar]
    rcases List.mem_cons.mp h with h' | h'
    · by_cases hr : 0 ≤ rfindChar rest c
      · simp [hr]; omega
      · simp [hr, h'.symm]
    · have := ih h'
      simp [this]; omega

theorem rfindChar_eq_neg_of_not_mem {s : Str} {c : Char} (h : c ∉ s) :
    rfindChar s c = -1 := by
  induction s with
  | nil => rfl
  | cons a rest ih =>
    rw [rfindChar]
    have ha : a ≠ c := fun hac => h (by simp [hac])
    have hr : rfindChar rest c = -1 := ih fun hm => h (List.mem_cons_of_mem _ hm)
    simp [hr, ha]

theorem rfindChar_lt_length (s : Str) (c : Char) :
    rfindChar s c < (s.length : Int) := by
  induction s with
  | nil => simp [rfindChar]
  | cons a rest ih =>
    rw [rfindChar]
    by_cases hr : 0 ≤ rfindChar rest c
    · simp only [hr, if_pos]
      simp only [List.length_cons]
      omega
    · simp only [hr, if_neg]
      by_cases ha : a = c
      · simp only [ha, if_pos, List.length_cons]
        omega
      · simp only [ha, if_neg, List.length_cons]
        omega

theorem rfindChar_append_of_mem {b : Str} (a : Str) {c : Char} (h : c ∈ b) :
    rfindChar (a ++ b) c = (a.length : Int) + rfindChar b c := by
  induction a with
  | nil => simp
  | cons x xs ih =>
    rw [List.cons_append, rfindChar, ih]
    have hb : 0 ≤ rfindChar b c := rfindChar_nonneg_of_mem h
    have : 0 ≤ (xs.length : Int) + rfindChar b c := by omega
    simp only [this, if_pos, List.length_cons]
    push_cast
    omega

theorem rfindChar_append_of_not_mem {b : Str} (a : Str) {c : Char} (h : c ∉ b) :
    rfindChar (a ++ b) c = rfindChar a c := by
  induction a with
  | nil => simp [rfindChar_eq_neg_of_not_mem h, rfindChar]
  | cons x xs ih => rw [List.cons_append, rfindChar, ih, rfindChar]

/-- Python `os.path.splitext(p)` (posixpath): split off the extension at the last
`'.'` that lies after the last `'/'` and after at least one non-dot character of
the final path component (CPython `genericpath._splitext`). -/
def splitext (p : Str) : Str × Str :=
  if rfindChar p '/' < rfindChar p '.' then
    if ((p.take (rfindChar p '.').toNat).drop (rfindChar p '/' + 1).toNat).any
        (fun c => c != '.') then
      (p.take (rfindChar p '.').toNat, p.drop (rfindChar p '.').toNat)
    else (p, [])
  else (p, [])

/-- `splitext` restricted to a slash-free final path component. -/
def splitextLast (c : Str) : Str × Str :=
  if 0 ≤ rfindChar c '.' ∧ (c.take (rfindChar c '.').toNat).any (fun x => x != '.') then
    (c.take (rfindChar c '.').toNat, c.drop (rfindChar c '.').toNat)
  else (c, [])

theorem splitext_join (p : Str) : (splitext p).1 ++ (splitext p).2 = p := by
  unfold splitext
  split
  · split
    · exact List.take_append_drop _ _
    · simp
  · simp

theorem splitextLast_join (c : Str) : (splitextLast c).1 ++ (splitextLast c).2 = c := by
  unfold splitextLast
  split
  · exact List.take_append_drop _ _
  · simp

/-- Python `os.path.basename(p)` (posixpath): everything after the last `'/'`. -/
def basename (p : Str) : Str := p.drop (rfindChar p '/' + 1).toNat

/-- Decimal digit characters used by `str(int(...))`. -/
def digitChar (d : Nat) : Char :=
  if d = 0 then '0' else if d = 1 then '1' else if d = 2 then '2'
  else if d = 3 then '3' else if d = 4 then '4' else if d = 5 then '5'
  else if d = 6 then '6' else if d = 7 then '7' else if d = 8 then '8' else '9'

/-- Python `str(n)` for a natural number `n`. -/
def natChars (n : Nat) : Str :=
  if h : n < 10 then [digitChar n]
  else natChars (n / 10) ++ [digitChar (n % 10)]
  termination_by n
  decreasing_by exact Nat.div_lt_self (by omega) (by omega)

theorem mem_natChars {n : Nat} {c : Char} (h : c ∈ natChars n) :
    ∃ d, c = digitChar d := by
  induction n using Nat.strong_induction_on with
  | _ n ih =>
    rw [natChars] at h
    by_cases hn : n < 10
    · simp [hn] at h
      exact ⟨n, h⟩
    · simp only [hn, dite_false, List.mem_append] at h
      rcases h with h | h
      · exact ih (n / 10) (Nat.div_lt_self (by omega) (by omega)) h
      · simp at h
        exact ⟨n % 10, h⟩

theorem digitChar_mem_digits (d : Nat) : digitChar d ∈ "0123456789".toList := by
  unfold digitChar
  repeat' split
  all_goals decide

theorem digitChar_not_special (d : Nat) :
    digitChar d ≠ '/' ∧ digitChar d ≠ '?' ∧ digitChar d ≠ '#' ∧
    digitChar d ≠ '\t' ∧ digitChar d ≠ '\r' ∧ digitChar d ≠ '\n' := by
  have hmem := digitChar_mem_digits d
  have hall : ∀ c ∈ "0123456789".toList,
      c ≠ '/' ∧ c ≠ '?' ∧ c ≠ '#' ∧ c ≠ '\t' ∧ c ≠ '\r' ∧ c ≠ '\n' := by decide
  exact hall _ hmem

/-! ### `s3_utils.py` -/

/-- The literal scheme marker `"s3://"`. -/
def s3Scheme : Str := "s3://".toList

/-- `s3_utils.is_s3_uri` (s3_utils.py:31): `path.startswith('s3://')`. -/
def is_s3_uri (path : Str) : Bool := s3Scheme.isPrefixOf path

/-- Characters CPython's `urlsplit` removes from a URL before parsing
(`_UNSAFE_URL_BYTES_TO_REMOVE` = tab, CR, LF). -/
def removeUnsafe (s : Str) : Str :=
  s.filter (fun c => c != '\t' && c != '\r' && c != '\n')

/-- Character class terminating the netloc in `urlsplit`. -/
def notDelim (c : Char) : Bool := c != '/' && c != '?' && c != '#'

/-- Characters starting the fragment / query in `urlsplit`. -/
def notFragQ (c : Char) : Bool := c != '#' && c != '?'

/-- `urlparse(s).netloc` for a string with scheme `s3`: the text after `"s3://"`
up to the first of `'/'`, `'?'`, `'#'` (after unsafe-byte removal). -/
def urlNetloc (s3_uri : Str) : Str :=
  ((removeUnsafe s3_uri).drop 5).takeWhile notDelim

/-- `urlparse(s).path` for a string with scheme `s3`: the text after the netloc,
with the fragment (first `'#'`) and query (first `'?'`) stripped. -/
def urlPath (s3_uri : Str) : Str :=
  (((removeUnsafe s3_uri).drop 5).dropWhile notDelim).takeWhile notFragQ

/-- The key extracted by `parse_s3_uri`: `parsed.path.lstrip('/')`. -/
def s3KeyOf (s3_uri : Str) : Str :=
  (urlPath s3_uri).dropWhile (fun c => c == '/')

/-- Hex-digit class of `string.hexdigits` (`0-9a-fA-F`), the character set
`ipaddress`'s `_parse_hextet` accepts and the class `[a-fA-F0-9]` of
`urllib.parse._check_bracketed_host`'s IPvFuture regex. -/
def isHexDigitCh (c : Char) : Bool :=
  (48 ≤ c.toNat && c.toNat ≤ 57) || (97 ≤ c.toNat && c.toNat ≤ 102) ||
  (65 ≤ c.toNat && c.toNat ≤ 70)

/-- ASCII decimal digit, the test `octet_str.isascii() and octet_str.isdigit()`
of `ipaddress._BaseV4._parse_octet`. -/
def isDecDigitCh (c : Char) : Bool := 48 ≤ c.toNat && c.toNat ≤ 57

/-- Value of a string of ASCII decimal digits (`int(octet_str, 10)`). -/
def decDigitsVal (s : Str) : Nat := s.foldl (fun a c => a * 10 + (c.toNat - 48)) 0

/-- Whether `ipaddress._BaseV4._parse_octet` accepts the string: nonempty, all
ASCII decimal digits, at most 3 characters, no leading zero except `"0"`
itself, and value at most 255. -/
def validOctet (s : Str) : Bool :=
  !s.isEmpty && s.all isDecDigitCh && !(s.length > 3) &&
  (s == ['0'] || s.head? != some '0') && !(decDigitsVal s > 255)

/-- Whether `ipaddress.IPv4Address._ip_int_from_string` accepts the string:
nonempty and exactly four valid dotted octets. (The constructor's additional
`'/' in addr_str` rejection cannot fire here because a netloc never contains
`'/'`.) -/
def validIPv4 (s : Str) : Bool :=
  !s.isEmpty && (s.splitOn '.').length == 4 && (s.splitOn '.').all validOctet

/-- Whether `ipaddress.IPv6Address._parse_hextet` accepts the string: all hex
digits, at most 4 characters, and nonempty (`int('', 16)` raises). -/
def validHextet (s : Str) : Bool :=
  s.all isHexDigitCh && !(s.length > 4) && !s.isEmpty

/-- IPv4-suffix step of `IPv6Address._ip_int_from_string`: when the last
colon-part contains a dot it must be a valid IPv4 address and is replaced by
two hextet parts (`'%x'` of 16-bit values, here `"0"`/`"0"`, which like the
real rendering are nonempty valid hextets — the only properties the remaining
checks consult); `none` models the raise when the IPv4 parse fails. -/
def ipv4SuffixFix (parts : List Str) : Option (List Str) :=
  if (parts.getLast?.getD []).contains '.' then
    if validIPv4 (parts.getLast?.getD []) then
      some (parts.dropLast ++ [['0'], ['0']])
    else none
  else some parts

/-- Indices `i` with `0 < i < len-1` whose part is empty: the candidate `'::'`
skip positions scanned by `IPv6Address._ip_int_from_string`. -/
def emptyInteriorIdxs (parts : List Str) : List Nat :=
  (List.range parts.length).filter
    (fun i => !(i == 0) && !(i + 1 == parts.length) && (parts.getD i []).isEmpty)

/-- Branch of `_ip_int_from_string` with no `'::'`: exactly 8 parts, nonempty
endpoints, and every part a valid hextet. -/
def validPartsNoSkip (parts : List Str) : Bool :=
  parts.length == 8 && !(parts.getD 0 []).isEmpty &&
  !(parts.getLast?.getD []).isEmpty && parts.all validHextet

/-- Branch of `_ip_int_from_string` with one `'::'` at interior index `i`: an
empty first (last) part is only allowed adjacent to the skip, at least one
hextet is skipped (`parts_hi + parts_lo ≤ 7`), and the parts on each side of
the skip are valid hextets. -/
def validPartsSkip (parts : List Str) (i : Nat) : Bool :=
  if (parts.getD 0 []).isEmpty && !(i == 1) then false
  else if (parts.getLast?.getD []).isEmpty && !(i + 2 == parts.length) then false
  else
    ((if (parts.getD 0 []).isEmpty then 0 else i) +
      (if (parts.getLast?.getD []).isEmpty then 0 else parts.length - i - 1) ≤ 7 : Bool)
    && (parts.take (if (parts.getD 0 []).isEmpty then 0 else i)).all validHextet
    && (parts.drop (parts.length -
          (if (parts.getLast?.getD []).isEmpty then 0
           else parts.length - i - 1))).all validHextet

/-- Whether `IPv6Address._ip_int_from_string` accepts the (scope-free) string:
nonempty, at least 3 colon-parts, IPv4 suffix handled, at most 9 parts, and at
most one `'::'` with the corresponding branch checks. -/
def validIPv6Addr (addr : Str) : Bool :=
  if addr.isEmpty then false
  else if (addr.splitOn ':').length < 3 then false
  else match ipv4SuffixFix (addr.splitOn ':') with
    | none => false
    | some parts =>
      if parts.length > 9 then false
      else match emptyInteriorIdxs parts with
        | [] => validPartsNoSkip parts
        | [i] => validPartsSkip parts i
        | _ => false

/-- Scope id of `IPv6Address._split_scope_id`: the text after the first `'%'`. -/
def scopeOf (h : Str) : Str := (h.dropWhile (fun c => c != '%')).drop 1

/-- Address part of `IPv6Address._split_scope_id`: the text before the first
`'%'`. -/
def addrOf (h : Str) : Str := h.takeWhile (fun c => c != '%')

/-- Whether `ipaddress.IPv6Address(h)` accepts the string: an optional
`%scope` suffix (nonempty, no further `'%'`) on a valid IPv6 address. -/
def validIPv6 (h : Str) : Bool :=
  if h.contains '%' then
    !(scopeOf h).isEmpty && !((scopeOf h).contains '%') && validIPv6Addr (addrOf h)
  else validIPv6Addr h

/-- `urllib.parse._check_bracketed_host` as a predicate (`true` = no raise):
a host starting with `'v'` must match `\Av[a-fA-F0-9]+\..+\Z` (the IPvFuture
form; the `.+` may be anything since tab/CR/LF were already removed); any other
host must be accepted by `ipaddress.ip_address` and not be an IPv4 address —
i.e. it must be a valid IPv6 address. -/
def checkBracketedHost (h : Str) : Bool :=
  if h.head? == some 'v' then
    !(((h.drop 1).takeWhile isHexDigitCh).isEmpty) &&
    ((h.drop 1).dropWhile isHexDigitCh).head? == some '.' &&
    !((((h.drop 1).dropWhile isHexDigitCh).drop 1).isEmpty)
  else if validIPv4 h then false
  else validIPv6 h

/-- Bracketed host of `urlsplit`:
`netloc.partition('[')[2].partition(']')[0]`. -/
def bracketedHost (netloc : Str) : Str :=
  ((netloc.dropWhile (fun c => c != '[')).drop 1).takeWhile (fun c => c != ']')

/-- Unmatched-bracket test of `urlsplit`: `'['` without `']'` or vice versa,
which raises `ValueError('Invalid IPv6 URL')`. -/
def bracketMismatch (netloc : Str) : Bool :=
  (netloc.contains '[' && !(netloc.contains ']')) ||
  (netloc.contains ']' && !(netloc.contains '['))

/-- Matched-bracket test of `urlsplit`: both brackets present but
`_check_bracketed_host` raises on the bracketed host. -/
def bracketHostBad (netloc : Str) : Bool :=
  netloc.contains '[' && netloc.contains ']' &&
  !(checkBracketedHost (bracketedHost netloc))

/-- Failure cases of `s3_utils.parse_s3_uri` (s3_utils.py:43): the three
`ValueError`s it raises itself, plus the two `ValueError` sites of the
`urlsplit` call inside `urlparse` (unmatched bracket in the netloc, and a
matched-bracket host rejected by `_check_bracketed_host` — the latter's
message varies by sub-case; only the raising is modelled). -/
inductive S3ParseError where
  | notS3Uri
  | invalidIPv6Url
  | invalidBracketedHost
  | noBucket
  | noKey
deriving DecidableEq, Repr

/-- `s3_utils.parse_s3_uri` (s3_utils.py:43): urlparse-based split of an
`s3://bucket/key` string into bucket and key; raises `ValueError` (modelled as
`Except.error`) when the string lacks the scheme, when `urlsplit` rejects the
netloc's brackets, or when the bucket or the key is empty. -/
def parse_s3_uri (s3_uri : Str) : Except S3ParseError (Str × Str) :=
  if is_s3_uri s3_uri = false then .error .notS3Uri
  else if bracketMismatch (urlNetloc s3_uri) = true then .error .invalidIPv6Url
  else if bracketHostBad (urlNetloc s3_uri) = true then .error .invalidBracketedHost
  else if (urlNetloc s3_uri).isEmpty = true then .error .noBucket
  else if (s3KeyOf s3_uri).isEmpty = true then .error .noKey
  else .ok (urlNetloc s3_uri, s3KeyOf s3_uri)

theorem parse_s3_uri_ok_inv {s b k : Str}
    (h : parse_s3_uri s = .ok (b, k)) :
    is_s3_uri s = true ∧ bracketMismatch (urlNetloc s) = false ∧
    bracketHostBad (urlNetloc s) = false ∧
    urlNetloc s = b ∧ s3KeyOf s = k ∧
    (urlNetloc s).isEmpty = false ∧ (s3KeyOf s).isEmpty = false := by
  unfold parse_s3_uri at h
  by_cases h1 : is_s3_uri s = false
  · rw [if_pos h1] at h
    exact absurd h (by simp)
  · rw [if_neg h1] at h
    by_cases h2 : bracketMismatch (urlNetloc s) = true
    · rw [if_pos h2] at h
      exact absurd h (by simp)
    · rw [if_neg h2] at h
      by_cases h3 : bracketHostBad (urlNetloc s) = true
      · rw [if_pos h3] at h
        exact absurd h (by simp)
      · rw [if_neg h3] at h
        by_cases h4 : (urlNetloc s).isEmpty = true
        · rw [if_pos h4] at h
          exact absurd h (by simp)
        · rw [if_neg h4] at h
          by_cases h5 : (s3KeyOf s).isEmpty = true
          · rw [if_pos h5] at h
            exact absurd h (by simp)
          · rw [if_neg h5] at h
            have h6 : (urlNetloc s, s3KeyOf s) = (b, k) := by
              injection h
            injection h6 with e1 e2
            exact ⟨by simpa using h1, by simpa using h2, by simpa using h3,
              e1, e2, by simpa using h4, by simpa using h5⟩

def isErr {ε α : Type} : Except ε α → Bool
  | .ok _ => false
  | .error _ => true

/-- MIME type `upload_to_s3` uses for Word documents (s3_utils.py:140). -/
def docxContentType : Str :=
  "application/vnd.openxmlformats-officedocument.wordprocessingml.document".toList

def pdfContentType : Str := "application/pdf".toList

def dotPdf : Str := ".pdf".toList

def dotDocx : Str := ".docx".toList

/-- Content-type selection of `s3_utils.upload_to_s3` (s3_utils.py:139-142): the
Word MIME type by default, `application/pdf` when the local path ends in `.pdf`. -/
def contentTypeFor (local_path : Str) : Str :=
  if pyEndsWith local_path dotPdf then pdfContentType else docxContentType

/-- The generic binary MIME type named by the spec for unknown extensions
(spec §4.2: "unknown extensions use a generic binary content type").
Spec-side definition, present only for comparison with `contentTypeFor`. -/
def genericBinaryContentType : Str := "application/octet-stream".toList

/-! ### `file_utils.ensure_docx_extension` -/

/-- `file_utils.ensure_docx_extension` (file_utils.py:79): append `.docx` when
missing, identically for S3 URIs and local paths. -/
def ensure_docx_extension (filename : Str) : Str :=
  if is_s3_uri filename then
    if pyEndsWith filename dotDocx then filename else filename ++ dotDocx
  else
    if pyEndsWith filename dotDocx then filename else filename ++ dotDocx

/-! ### Decomposition lemmas for `splitext` -/

theorem splitext_append_last (A C : Str) (hC : '/' ∉ C) :
    splitext (A ++ '/' :: C) = (A ++ '/' :: (splitextLast C).1, (splitextLast C).2) := by
  have hsep : rfindChar (A ++ '/' :: C) '/' = (A.length : Int) := by
    rw [rfindChar_append_of_mem A (by simp : '/' ∈ '/' :: C)]
    have h0 : rfindChar ('/' :: C) '/' = 0 := by
      rw [rfindChar]
      simp [rfindChar_eq_neg_of_not_mem hC]
    rw [h0]
    omega
  by_cases hd : '.' ∈ C
  · have hj : 0 ≤ rfindChar C '.' := rfindChar_nonneg_of_mem hd
    obtain ⟨jn, hjn⟩ : ∃ jn : Nat, rfindChar C '.' = (jn : Int) :=
      ⟨(rfindChar C '.').toNat, (Int.toNat_of_nonneg hj).symm⟩
    have hdot : rfindChar (A ++ '/' :: C) '.' = (A.length : Int) + ((jn : Int) + 1) := by
      rw [rfindChar_append_of_mem A (List.mem_cons_of_mem _ hd)]
      congr 1
      rw [rfindChar, hjn]
      simp
    have htoN1 : ((A.length : Int) + ((jn : Int) + 1)).toNat = A.length + 1 + jn := by omega
    have htoN2 : ((A.length : Int) + 1).toNat = A.length + 1 := by omega
    have htake : (A ++ '/' :: C).take (A.length + 1 + jn) = (A ++ ['/']) ++ C.take jn := by
      rw [List.append_cons A '/' C]
      rw [show A.length + 1 + jn = (A ++ ['/']).length + jn by simp]
      exact List.take_append jn
    have hdropTake : ((A ++ ['/']) ++ C.take jn).drop (A.length + 1) = C.take jn := by
      rw [show A.length + 1 = (A ++ ['/']).length + 0 by simp]
      rw [List.drop_append 0]
      exact List.drop_zero _
    have hdrop : (A ++ '/' :: C).drop (A.length + 1 + jn) = C.drop jn := by
      rw [List.append_cons A '/' C]
      rw [show A.length + 1 + jn = (A ++ ['/']).length + jn by simp]
      exact List.drop_append jn
    have hlt : rfindChar (A ++ '/' :: C) '/' < rfindChar (A ++ '/' :: C) '.' := by
      rw [hsep, hdot]
      omega
    unfold splitext splitextLast
    rw [if_pos hlt, hdot, hsep, htoN1, htoN2, htake, hdropTake, hjn]
    rw [show ((jn : Int)).toNat = jn by omega]
    by_cases hany : (C.take jn).any (fun c => c != '.') = true
    · rw [if_pos hany, if_pos ⟨by omega, hany⟩, hdrop]
      simp
    · rw [if_neg hany]
      rw [if_neg (by intro hcon; exact hany hcon.2)]
  · have hdnot : '.' ∉ '/' :: C := by
      intro hcon
      rcases List.mem_cons.mp hcon with h | h
      · exact absurd h (by decide)
      · exact hd h
    have hdot : rfindChar (A ++ '/' :: C) '.' = rfindChar A '.' := by
      exact rfindChar_append_of_not_mem A hdnot
    have hnlt : ¬ rfindChar (A ++ '/' :: C) '/' < rfindChar (A ++ '/' :: C) '.' := by
      rw [hsep, hdot]
      have := rfindChar_lt_length A '.'
      omega
    have hcneg : rfindChar C '.' = -1 := rfindChar_eq_neg_of_not_mem hd
    unfold splitext splitextLast
    rw [if_neg hnlt, if_neg (by rw [hcneg]; intro hcon; omega)]

theorem splitext_no_slash (C : Str) (hC : '/' ∉ C) : splitext C = splitextLast C := by
  have hsep : rfindChar C '/' = -1 := rfindChar_eq_neg_of_not_mem hC
  unfold splitext splitextLast
  rw [hsep]
  by_cases hd : 0 ≤ rfindChar C '.'
  · rw [if_pos (by omega)]
    rw [show ((-1 : Int) + 1).toNat = 0 by omega]
    simp only [List.drop_zero]
    by_cases hany : (C.take (rfindChar C '.').toNat).any (fun c => c != '.') = true
    · rw [if_pos hany, if_pos ⟨hd, hany⟩]
    · rw [if_neg hany, if_neg (by intro hcon; exact hany hcon.2)]
  · rw [if_neg (by omega), if_neg (by intro hcon; exact hd hcon.1)]

/-! ### Claims C8 and C10 -/

/-- C10: `ensure_docx_extension` always returns a string ending in `.docx` and
is idempotent, for local paths and S3 URIs alike. -/
theorem C10_ensure_docx_extension_idempotent (s : Str) :
    pyEndsWith (ensure_docx_extension s) dotDocx = true ∧
    ensure_docx_extension (ensure_docx_extension s) = ensure_docx_extension s := by
  have key : ∀ t : Str, pyEndsWith t dotDocx = true → ensure_docx_extension t = t := by
    intro t ht
    unfold ensure_docx_extension
    by_cases hs : is_s3_uri t = true
    · simp [hs, ht]
    · simp [hs, ht]
  have hends : pyEndsWith (ensure_docx_extension s) dotDocx = true := by
    by_cases he : pyEndsWith s dotDocx = true
    · rw [key s he]
      exact he
    · have happ : pyEndsWith (s ++ dotDocx) dotDocx = true := by
        simp [pyEndsWith, List.isSuffixOf_iff_suffix]
      unfold ensure_docx_extension
      by_cases hs : is_s3_uri s = true
      · simp [hs, he, happ]
      · simp [hs, he, happ]
  exact ⟨hends, key _ hends⟩

/-! ### Filesystem / S3 effect model -/

/-- A local path: either a `tempfile.mkstemp` result (identified by allocation
number and the suffix its name ends with) or an ordinary local path. -/
inductive LPath where
  | temp (id : Nat) (suffix : Str)
  | real (p : Str)
deriving DecidableEq, Repr

/-- A block-level element of a Word document, as far as `merge_documents`
manipulates them: a paragraph (text), a table, or an explicit page break. -/
inductive Block where
  | para (text : Str)
  | table (t : Nat)
  | pageBreak
deriving DecidableEq, Repr

/-- The block-level content of a Word document. -/
structure Doc where
  paragraphs : List Str
  tables : List Nat
deriving DecidableEq, Repr

/-- One `s3.upload_file` call: target bucket/key and the `ContentType` sent. -/
structure UploadEvent where
  bucket : Str
  key : Str
  contentType : Str
deriving DecidableEq, Repr

/-- Mutable state threaded through the model: the temp-name allocator, the temp
files currently on disk, the S3 PUTs performed, and the document saves. -/
structure FS where
  nextTemp : Nat
  live : List LPath
  uploads : List UploadEvent
  saves : List (LPath × List Block)
deriving Repr

def FS.init : FS := { nextTemp := 0, live := [], uploads := [], saves := [] }

/-- Environment oracles: outcomes of S3 GET/PUT per URI, local-file existence
and writeability, and the parsed content of each readable document. -/
structure World where
  downloadOk : Str → Bool
  uploadOk : Str → Bool
  localExists : Str → Bool
  writeable : Str → Bool
  docAt : LPath → Doc

/-- `tempfile.mkstemp(suffix=...)`: fresh name, file created on disk. -/
def mkstemp (suffix : Str) (fs : FS) : LPath × FS :=
  (LPath.temp fs.nextTemp suffix,
   { fs with
       nextTemp := fs.nextTemp + 1
       live := fs.live ++ [LPath.temp fs.nextTemp suffix] })

/-- `os.unlink` on a temp path (deleting a name removes it from the directory;
wrapped in `try/except pass` at every call site, so failures are absorbed). -/
def unlinkL (p : LPath) (fs : FS) : FS :=
  { fs with live := fs.live.filter (fun q => q != p) }

/-- `os.path.exists`. -/
def existsL (w : World) (fs : FS) : LPath → Bool
  | .temp i suffix => decide (LPath.temp i suffix ∈ fs.live)
  | .real p => w.localExists p

/-- Content type by local file name (s3_utils.py:139-142).  An `mkstemp` name is
random characters followed by the suffix; since every suffix passed in this code
base is empty or starts with `'.'` and the random part contains no `'.'`, the
name ends with `".pdf"` exactly when the suffix does. -/
def contentTypeForL : LPath → Str
  | .temp _ suffix => contentTypeFor suffix
  | .real p => contentTypeFor p

def parseErrText : S3ParseError → Str
  | .notS3Uri => "Not a valid S3 URI".toList
  | .invalidIPv6Url => "Invalid IPv6 URL".toList
  | .invalidBracketedHost => "does not appear to be an IPv4 or IPv6 address".toList
  | .noBucket => "No bucket specified in S3 URI".toList
  | .noKey => "No key specified in S3 URI".toList

/-- `s3_utils.download_from_s3` (s3_utils.py:70): parse the URI, allocate a temp
file with the key's extension when no local path is given, then attempt the GET.
On a transport failure the function returns `(False, msg, None)` — note that the
freshly created temp file stays on disk and its path is discarded. -/
def download_from_s3 (w : World) (s3_uri : Str) (local_path : Option LPath) (fs : FS) :
    (Bool × Str × Option LPath) × FS :=
  match parse_s3_uri s3_uri with
  | .error e => ((false, parseErrText e, none), fs)
  | .ok (_, key) =>
    let pfs : LPath × FS :=
      match local_path with
      | some p => (p, fs)
      | none => mkstemp (splitext (basename key)).2 fs
    if w.downloadOk s3_uri then
      ((true, "Downloaded from S3".toList, some pfs.1), pfs.2)
    else
      ((false, "Failed to download from S3".toList, none), pfs.2)

/-- `s3_utils.upload_to_s3` (s3_utils.py:118): parse the URI, require the local
file to exist, then PUT with the extension-derived content type; the PUT is
recorded whether or not the transport succeeds. -/
def upload_to_s3 (w : World) (local_path : LPath) (s3_uri : Str) (fs : FS) :
    (Bool × Str) × FS :=
  match parse_s3_uri s3_uri with
  | .error e => ((false, parseErrText e), fs)
  | .ok (bucket, key) =>
    if !(existsL w fs local_path) then
      ((false, "Local file does not exist".toList), fs)
    else
      let fs1 := { fs with
        uploads := fs.uploads ++ [⟨bucket, key, contentTypeForL local_path⟩] }
      if w.uploadOk s3_uri then ((true, "Uploaded".toList), fs1)
      else ((false, "S3 error".toList), fs1)

/-! ### `file_utils.S3FileContext` -/

def editedMarker : Str := "_edited_".toList

/-- `S3FileContext._generate_versioned_path` (file_utils.py:143): insert
`_edited_<int(time.time())>` before the extension of the URI string. -/
def generate_versioned_path (s3_uri : Str) (now : Nat) : Str :=
  (splitext s3_uri).1 ++ editedMarker ++ natChars now ++ (splitext s3_uri).2

/-- Python truthiness of an optional string (`if self.output_s3_uri:`). -/
def truthyOpt : Option Str → Bool
  | some u => !u.isEmpty
  | none => false

/-- The mutable attributes of a `file_utils.S3FileContext` instance. -/
structure S3FileContext where
  original_path : Str
  is_s3 : Bool
  read_only : Bool
  local_path : Option LPath
  temp_file : Option LPath
  output_temp_file : Option LPath
  output_local_path : Option LPath
  output_s3_uri : Option Str
deriving DecidableEq, Repr

/-- `S3FileContext.__init__` (file_utils.py:118); `now` is `int(time.time())`. -/
def S3FileContext.init (filename : Str) (read_only : Bool) (output_s3_uri : Option Str)
    (now : Nat) : S3FileContext :=
  { original_path := filename
    is_s3 := is_s3_uri filename
    read_only := read_only
    local_path := none
    temp_file := none
    output_temp_file := none
    output_local_path := none
    output_s3_uri :=
      if truthyOpt output_s3_uri then output_s3_uri
      else if is_s3_uri filename && !read_only then
        some (generate_versioned_path filename now)
      else none }

/-- The `mkstemp` suffix for the output temp file (file_utils.py:163-164):
the output URI's extension, or `.docx` when it has none. -/
def outputSuffix (ctx : S3FileContext) : Str :=
  if ((splitext (ctx.output_s3_uri.getD [])).2).isEmpty then dotDocx
  else (splitext (ctx.output_s3_uri.getD [])).2

/-- Record updates of `__enter__` after the output `mkstemp` (file_utils.py:164-172):
remember the output temp file and, for an S3 source with a downloaded input,
copy the input into it and point `local_path` at the copy. -/
def enterOutputMk (ctx : S3FileContext) (ofs : LPath × FS) : S3FileContext × FS :=
  if ctx.is_s3 && ctx.local_path.isSome then
    ({ ctx with output_local_path := some ofs.1, output_temp_file := some ofs.1,
                local_path := some ofs.1 }, ofs.2)
  else
    ({ ctx with output_local_path := some ofs.1, output_temp_file := some ofs.1 }, ofs.2)

/-- Output-path handling of `S3FileContext.__enter__` (file_utils.py:161-174). -/
def S3FileContext.enterOutput (ctx : S3FileContext) (fs : FS) : S3FileContext × FS :=
  if truthyOpt ctx.output_s3_uri then
    enterOutputMk ctx (mkstemp (outputSuffix ctx) fs)
  else ({ ctx with output_local_path := ctx.local_path }, fs)

/-- `S3FileContext.__enter__` (file_utils.py:150): download S3 sources to a temp
file (raising `IOError`, modelled as `Except.error`, when the download fails),
then set up the output path. -/
def S3FileContext.enter (w : World) (ctx : S3FileContext) (fs : FS) :
    Except Str S3FileContext × FS :=
  if ctx.is_s3 then
    match download_from_s3 w ctx.original_path none fs with
    | ((true, _, some lp), fs1) =>
      let r := S3FileContext.enterOutput { ctx with local_path := some lp, temp_file := some lp } fs1
      (.ok r.1, r.2)
    | ((true, _, none), fs1) =>
      (.error "Failed to download from S3: ".toList, fs1)
    | ((false, m, _), fs1) =>
      (.error ("Failed to download from S3: ".toList ++ m), fs1)
  else
    let r := S3FileContext.enterOutput { ctx with local_path := some (LPath.real ctx.original_path) } fs
    (.ok r.1, r.2)

/-- First half of the `finally` block of `__exit__` (file_utils.py:189-193):
unlink `_temp_file` if it exists. -/
def exitCleanupIn (w : World) (ctx : S3FileContext) (fs : FS) : FS :=
  match ctx.temp_file with
  | some t => if existsL w fs t then unlinkL t fs else fs
  | none => fs

/-- Second half of the `finally` block of `__exit__` (file_utils.py:194-198):
unlink `_output_temp_file` when distinct from `_temp_file` and existing. -/
def exitCleanupOut (w : World) (ctx : S3FileContext) (fs : FS) : FS :=
  match ctx.output_temp_file with
  | some o =>
    if ctx.output_temp_file != ctx.temp_file && existsL w fs o then unlinkL o fs else fs
  | none => fs

/-- The `finally` block of `S3FileContext.__exit__` (file_utils.py:187-198). -/
def S3FileContext.exitCleanup (w : World) (ctx : S3FileContext) (fs : FS) : FS :=
  exitCleanupOut w ctx (exitCleanupIn w ctx fs)

/-- Outcome of the upload inside `__exit__` (file_utils.py:184-186): a failed
upload raises `IOError`. -/
def uploadStep : ((Bool × Str) × FS) → Except Str Unit × FS
  | ((true, _), fs1) => (.ok (), fs1)
  | ((false, m), fs1) => (.error ("Failed to upload to S3: ".toList ++ m), fs1)

/-- The `try` block of `S3FileContext.__exit__` (file_utils.py:179-186): on a
clean, non-read-only exit with an output URI and an existing output file,
upload it. -/
def exitTry (w : World) (ctx : S3FileContext) (exc : Bool) (fs : FS) :
    Except Str Unit × FS :=
  if !exc && !ctx.read_only then
    match ctx.output_s3_uri, ctx.output_local_path with
    | some u, some olp =>
      if !u.isEmpty && existsL w fs olp then
        uploadStep (upload_to_s3 w olp u fs)
      else (.ok (), fs)
    | _, _ => (.ok (), fs)
  else (.ok (), fs)

/-- `S3FileContext.__exit__` (file_utils.py:178): the `try` block, then the
unconditional temp-file cleanup.  `exc` is true when the `with` body raised. -/
def S3FileContext.exit (w : World) (ctx : S3FileContext) (exc : Bool) (fs : FS) :
    Except Str Unit × FS :=
  ((exitTry w ctx exc fs).1, S3FileContext.exitCleanup w ctx (exitTry w ctx exc fs).2)

/-- `S3FileContext.get_result_path` (file_utils.py:202). -/
def S3FileContext.get_result_path (ctx : S3FileContext) : Str :=
  if truthyOpt ctx.output_s3_uri then ctx.output_s3_uri.getD [] else ctx.original_path

/-- One full `with S3FileContext(...) :` session: construct, `__enter__`, run the
body (`bodyFails` = the body raised), `__exit__`.  When `__enter__` raises,
Python does not call `__exit__`. -/
def runSession (w : World) (filename : Str) (read_only : Bool)
    (output_s3_uri : Option Str) (now : Nat) (bodyFails : Bool) (fs : FS) :
    Except Str S3FileContext × FS :=
  match S3FileContext.enter w (S3FileContext.init filename read_only output_s3_uri now) fs with
  | (.error e, fs1) => (.error e, fs1)
  | (.ok ctx1, fs1) =>
    match S3FileContext.exit w ctx1 bodyFails fs1 with
    | (.ok _, fs2) =>
      if bodyFails then (.error "body raised".toList, fs2) else (.ok ctx1, fs2)
    | (.error e, fs2) => (.error e, fs2)

/-! ### Preservation lemmas for the effect model -/

theorem mkstemp_uploads (suffix : Str) (fs : FS) :
    ((mkstemp suffix fs).2).uploads = fs.uploads := rfl

theorem unlinkL_uploads (p : LPath) (fs : FS) : (unlinkL p fs).uploads = fs.uploads := rfl

theorem mkstemp_saves (suffix : Str) (fs : FS) :
    ((mkstemp suffix fs).2).saves = fs.saves := rfl

theorem unlinkL_saves (p : LPath) (fs : FS) : (unlinkL p fs).saves = fs.saves := rfl

theorem download_uploads (w : World) (s : Str) (lp : Option LPath) (fs : FS) :
    ((download_from_s3 w s lp fs).2).uploads = fs.uploads := by
  unfold download_from_s3
  cases hp : parse_s3_uri s with
  | error e => rfl
  | ok bk =>
    cases bk with
    | mk b k =>
      cases lp with
      | some p =>
        by_cases hdl : w.downloadOk s = true
        · simp [hdl]
        · simp [hdl]
      | none =>
        by_cases hdl : w.downloadOk s = true
        · simp [hdl, mkstemp]
        · simp [hdl, mkstemp]

theorem download_saves (w : World) (s : Str) (lp : Option LPath) (fs : FS) :
    ((download_from_s3 w s lp fs).2).saves = fs.saves := by
  unfold download_from_s3
  cases hp : parse_s3_uri s with
  | error e => rfl
  | ok bk =>
    cases bk with
    | mk b k =>
      cases lp with
      | some p =>
        by_cases hdl : w.downloadOk s = true
        · simp [hdl]
        · simp [hdl]
      | none =>
        by_cases hdl : w.downloadOk s = true
        · simp [hdl, mkstemp]
        · simp [hdl, mkstemp]

theorem exitCleanupIn_uploads (w : World) (ctx : S3FileContext) (fs : FS) :
    (exitCleanupIn w ctx fs).uploads = fs.uploads := by
  unfold exitCleanupIn
  split
  · split
    · exact unlinkL_uploads _ fs
    · rfl
  · rfl

theorem exitCleanupOut_uploads (w : World) (ctx : S3FileContext) (fs : FS) :
    (exitCleanupOut w ctx fs).uploads = fs.uploads := by
  unfold exitCleanupOut
  split
  · split
    · exact unlinkL_uploads _ fs
    · rfl
  · rfl

theorem exitCleanup_uploads (w : World) (ctx : S3FileContext) (fs : FS) :
    (S3FileContext.exitCleanup w ctx fs).uploads = fs.uploads := by
  unfold S3FileContext.exitCleanup
  rw [exitCleanupOut_uploads, exitCleanupIn_uploads]

theorem enterOutputMk_uploads (ctx : S3FileContext) (ofs : LPath × FS) :
    ((enterOutputMk ctx ofs).2).uploads = ofs.2.uploads := by
  unfold enterOutputMk
  split
  · rfl
  · rfl

theorem enterOutput_uploads (ctx : S3FileContext) (fs : FS) :
    ((S3FileContext.enterOutput ctx fs).2).uploads = fs.uploads := by
  unfold S3FileContext.enterOutput
  split
  · rw [enterOutputMk_uploads]
    exact mkstemp_uploads _ fs
  · rfl

theorem enter_uploads (w : World) (ctx : S3FileContext) (fs : FS) :
    ((S3FileContext.enter w ctx fs).2).uploads = fs.uploads := by
  unfold S3FileContext.enter
  split
  · split
    next lp fs1 heq =>
      have hd := download_uploads w ctx.original_path none fs
      rw [heq] at hd
      calc ((S3FileContext.enterOutput _ fs1).2).uploads = fs1.uploads :=
            enterOutput_uploads _ fs1
        _ = fs.uploads := hd
    next fs1 heq =>
      have hd := download_uploads w ctx.original_path none fs
      rw [heq] at hd
      exact hd
    next m fs1 heq =>
      have hd := download_uploads w ctx.original_path none fs
      rw [heq] at hd
      exact hd
  · exact enterOutput_uploads _ fs

theorem enterOutputMk_fields (ctx : S3FileContext) (ofs : LPath × FS) :
    ((enterOutputMk ctx ofs).1).read_only = ctx.read_only ∧
    ((enterOutputMk ctx ofs).1).output_s3_uri = ctx.output_s3_uri ∧
    ((enterOutputMk ctx ofs).1).original_path = ctx.original_path := by
  unfold enterOutputMk
  split
  · exact ⟨rfl, rfl, rfl⟩
  · exact ⟨rfl, rfl, rfl⟩

theorem enterOutput_fields (ctx : S3FileContext) (fs : FS) :
    ((S3FileContext.enterOutput ctx fs).1).read_only = ctx.read_only ∧
    ((S3FileContext.enterOutput ctx fs).1).output_s3_uri = ctx.output_s3_uri ∧
    ((S3FileContext.enterOutput ctx fs).1).original_path = ctx.original_path := by
  unfold S3FileContext.enterOutput
  split
  · exact enterOutputMk_fields ctx _
  · exact ⟨rfl, rfl, rfl⟩

theorem enter_ok_fields {w : World} {ctx ctx1 : S3FileContext} {fs fs1 : FS}
    (h : S3FileContext.enter w ctx fs = (.ok ctx1, fs1)) :
    ctx1.read_only = ctx.read_only ∧ ctx1.output_s3_uri = ctx.output_s3_uri ∧
    ctx1.original_path = ctx.original_path := by
  unfold S3FileContext.enter at h
  split at h
  · split at h
    next lp fs' heq =>
      have hf := enterOutput_fields
        { ctx with local_path := some lp, temp_file := some lp } fs'
      have : ctx1 = (S3FileContext.enterOutput
          { ctx with local_path := some lp, temp_file := some lp } fs').1 := by
        have := congrArg Prod.fst h
        simp at this
        exact this.symm
      rw [this]
      exact hf
    next fs' heq => simp at h
    next m fs' heq => simp at h
  · have hf := enterOutput_fields
      { ctx with local_path := some (LPath.real ctx.original_path) } fs
    have : ctx1 = (S3FileContext.enterOutput
        { ctx with local_path := some (LPath.real ctx.original_path) } fs).1 := by
      have := congrArg Prod.fst h
      simp at this
      exact this.symm
    rw [this]
    exact hf

theorem exit_uploads_of_read_only (w : World) (ctx : S3FileContext) (exc : Bool) (fs : FS)
    (h : ctx.read_only = true) :
    ((S3FileContext.exit w ctx exc fs).2).uploads = fs.uploads := by
  unfold S3FileContext.exit exitTry
  have hcond : (!exc && !ctx.read_only) = false := by
    rw [h]
    simp
  rw [hcond]
  simp only [Bool.false_eq_true, if_false]
  exact exitCleanup_uploads w ctx fs

/-! ### Concrete oracle environments used by witnesses and counterexamples -/

/-- Every remote operation succeeds; local files exist and are writeable. -/
def allOkWorld : World :=
  { downloadOk := fun _ => true
    uploadOk := fun _ => true
    localExists := fun _ => true
    writeable := fun _ => true
    docAt := fun _ => ⟨[], []⟩ }

/-- Every S3 GET fails (e.g. the object is missing); everything else succeeds. -/
def downFailWorld : World :=
  { downloadOk := fun _ => false
    uploadOk := fun _ => true
    localExists := fun _ => true
    writeable := fun _ => true
    docAt := fun _ => ⟨[], []⟩ }

/-! ### Claims C1, C5, C6 -/

/-- C1 (code bug): in the session `S3FileContext("s3://bucket/doc.docx")` whose
S3 GET fails after `download_from_s3` has already created its temp file, that
temp file is left on disk: `download_from_s3` returns `(False, msg, None)`
discarding the path, `__enter__` raises, and `__exit__` never runs — so the end
of the session leaves one live temp file, contradicting the claim that every
temp file allocated during the session is deleted by the end of close. -/
theorem C1_temp_file_leak_on_download_failure :
    isErr (runSession downFailWorld "s3://bucket/doc.docx".toList false none 7 false
        FS.init).1 = true ∧
    (runSession downFailWorld "s3://bucket/doc.docx".toList false none 7 false
        FS.init).2.live = [LPath.temp 0 dotDocx] := by
  constructor
  · rfl
  · rfl

/-- C5: a session opened read-only performs no upload at close, whatever the
environment, the body outcome, and even an explicit output URI. -/
theorem C5_read_only_no_upload (w : World) (f : Str) (outUri : Option Str) (now : Nat)
    (bodyFails : Bool) (fs : FS) (h : is_s3_uri f = true) :
    (runSession w f true outUri now bodyFails fs).2.uploads = fs.uploads := by
  unfold runSession
  split
  next e fs1 heq =>
    have h1 := enter_uploads w (S3FileContext.init f true outUri now) fs
    rw [heq] at h1
    exact h1
  next ctx1 fs1 heq =>
    have h1 := enter_uploads w (S3FileContext.init f true outUri now) fs
    rw [heq] at h1
    have hro : ctx1.read_only = true := by
      have hf := enter_ok_fields heq
      rw [hf.1]
      rfl
    split
    next u fs2 heq2 =>
      have h2 := exit_uploads_of_read_only w ctx1 bodyFails fs1 hro
      rw [heq2] at h2
      cases bodyFails
      · exact h2.trans h1
      · exact h2.trans h1
    next e fs2 heq2 =>
      have h2 := exit_uploads_of_read_only w ctx1 bodyFails fs1 hro
      rw [heq2] at h2
      exact h2.trans h1

/-- Witness for C5: a concrete read-only session over `s3://b/doc.docx`. -/
theorem C5_read_only_no_upload_witness :
    (runSession allOkWorld "s3://b/doc.docx".toList true none 3 false FS.init).2.uploads
      = FS.init.uploads :=
  C5_read_only_no_upload allOkWorld "s3://b/doc.docx".toList none 3 false FS.init
    (by decide)

/-- C6: a local source opened read-write with no explicit output works in place —
the working path and the output path are the original local path, the reported
result path is the original path, and no upload happens at close. -/
theorem C6_local_readwrite_in_place (w : World) (f : Str) (now : Nat) (fs : FS)
    (h : is_s3_uri f = false) :
    runSession w f false none now false fs =
      (.ok { original_path := f, is_s3 := false, read_only := false,
             local_path := some (LPath.real f), temp_file := none,
             output_temp_file := none, output_local_path := some (LPath.real f),
             output_s3_uri := none }, fs) ∧
    S3FileContext.get_result_path
      { original_path := f, is_s3 := false, read_only := false,
        local_path := some (LPath.real f), temp_file := none,
        output_temp_file := none, output_local_path := some (LPath.real f),
        output_s3_uri := none } = f ∧
    ∀ bodyFails, (runSession w f false none now bodyFails fs).2.uploads = fs.uploads := by
  have hinit : S3FileContext.init f false none now =
      { original_path := f, is_s3 := false, read_only := false, local_path := none,
        temp_file := none, output_temp_file := none, output_local_path := none,
        output_s3_uri := none } := by
    simp [S3FileContext.init, truthyOpt, h]
  refine ⟨?_, rfl, ?_⟩
  · unfold runSession
    rw [hinit]
    rfl
  · intro bodyFails
    unfold runSession
    rw [hinit]
    cases bodyFails
    · rfl
    · rfl

/-- Witness for C6: a concrete in-place session over the local `report.docx`. -/
theorem C6_local_readwrite_in_place_witness :
    runSession allOkWorld "report.docx".toList false none 4 false FS.init =
      (.ok { original_path := "report.docx".toList, is_s3 := false, read_only := false,
             local_path := some (LPath.real "report.docx".toList), temp_file := none,
             output_temp_file := none,
             output_local_path := some (LPath.real "report.docx".toList),
             output_s3_uri := none }, FS.init) ∧
    S3FileContext.get_result_path
      { original_path := "report.docx".toList, is_s3 := false, read_only := false,
        local_path := some (LPath.real "report.docx".toList), temp_file := none,
        output_temp_file := none,
        output_local_path := some (LPath.real "report.docx".toList),
        output_s3_uri := none } = "report.docx".toList :=
  ⟨(C6_local_readwrite_in_place allOkWorld "report.docx".toList 4 FS.init (by decide)).1,
   (C6_local_readwrite_in_place allOkWorld "report.docx".toList 4 FS.init (by decide)).2.1⟩

/-! ### `document_tools.merge_documents` -/

/-- The block-level content `merge_documents` copies from one source document:
all paragraphs (in order), then all tables (document_tools.py:297-324). -/
def contentBlocks (d : Doc) : List Block :=
  d.paragraphs.map Block.para ++ d.tables.map Block.table

/-- The `for i, local_source in enumerate(local_sources)` loop body of
`merge_documents` (document_tools.py:290-324): a page break before every
source except the first (when requested), then the source's content. -/
def mergeLoop (apb : Bool) (i : Nat) (docs : List Doc) (target : List Block) : List Block :=
  match docs with
  | [] => target
  | d :: rest =>
    mergeLoop apb (i + 1) rest
      (target ++ (if apb && decide (0 < i) then [Block.pageBreak] else []) ++ contentBlocks d)

/-- The merged document built by `merge_documents` from the resolved sources. -/
def buildMerged (docs : List Doc) (add_page_breaks : Bool) : List Block :=
  mergeLoop add_page_breaks 0 docs []

/-- Spec-side description of §4.5 step 3: the first source's content, then each
later source's content preceded immediately by one page break, in order. -/
def interleaveBreaks : List (List Block) → List Block
  | [] => []
  | b :: rest => b ++ (rest.map (fun c => Block.pageBreak :: c)).flatten

def isPageBreak : Block → Bool
  | .pageBreak => true
  | _ => false

/-- The distinct outcomes (`return` statements) of `merge_documents`. -/
inductive MRes where
  | success (count : Nat) (target : Str)
  | notWriteable (target : Str)
  | downloadFail (source msg : Str)
  | sourceMissing (source : Str)
  | uploadFail (msg : Str)
deriving DecidableEq, Repr

/-- Whether a merge outcome is an abort during source resolution. -/
def MRes.isResolveFailure : MRes → Bool
  | .downloadFail _ _ => true
  | .sourceMissing _ => true
  | _ => false

/-- The source-resolution loop of `merge_documents` (document_tools.py:262-276):
normalize each name, download S3 sources into temp files (collected in
`temp_files`), require local sources to exist; the first failure returns the
corresponding failure message. -/
def resolveSources (w : World) :
    List Str → FS → List LPath → List LPath → (Except MRes (List LPath)) × FS × List LPath
  | [], fs, temps, acc => (.ok acc, fs, temps)
  | fn :: rest, fs, temps, acc =>
    if is_s3_uri (ensure_docx_extension fn) then
      match download_from_s3 w (ensure_docx_extension fn) none fs with
      | ((true, _, some lp), fs1) =>
        resolveSources w rest fs1 (temps ++ [lp]) (acc ++ [lp])
      | ((true, _, none), fs1) =>
        (.error (.downloadFail (ensure_docx_extension fn) []), fs1, temps)
      | ((false, m, _), fs1) =>
        (.error (.downloadFail (ensure_docx_extension fn) m), fs1, temps)
    else
      if w.localExists (ensure_docx_extension fn) then
        resolveSources w rest fs temps (acc ++ [LPath.real (ensure_docx_extension fn)])
      else
        (.error (.sourceMissing (ensure_docx_extension fn)), fs, temps)

/-- `target_doc.save(local_target)` (document_tools.py:327). -/
def saveTo (local_target : LPath) (blocks : List Block) (fs : FS) : FS :=
  { fs with saves := fs.saves ++ [(local_target, blocks)] }

/-- Outcome of the final S3 upload of `merge_documents` (document_tools.py:330-333). -/
def mergeUpload : ((Bool × Str) × FS) → Nat → Str → List LPath → MRes × FS × List LPath
  | ((true, _), fs3), count, target, temps => (.success count target, fs3, temps)
  | ((false, m), fs3), _, _, temps =>
    (.uploadFail ("Failed to upload merged document to S3: ".toList ++ m), fs3, temps)

/-- Tail of `merge_documents` after the target path is fixed
(document_tools.py:286-335): build the merged document, save it to the local
target, and upload it when the target is S3, surfacing an upload failure. -/
def mergeSave (w : World) (target : Str) (local_sources : List LPath)
    (add_page_breaks : Bool) (count : Nat) (target_is_s3 : Bool)
    (local_target : LPath) (fs : FS) (temps : List LPath) : MRes × FS × List LPath :=
  if target_is_s3 then
    mergeUpload
      (upload_to_s3 w local_target target
        (saveTo local_target (buildMerged (local_sources.map w.docAt) add_page_breaks) fs))
      count target temps
  else
    (.success count target,
     saveTo local_target (buildMerged (local_sources.map w.docAt) add_page_breaks) fs, temps)

/-- The `try` block of `merge_documents` (document_tools.py:238-337): writeable
check for local targets, source resolution, target temp allocation for S3
targets, document build and save, final upload for S3 targets.  Returns the
outcome, the state, and the `temp_files` list for the `finally` block. -/
def mergeCore (w : World) (target_filename : Str) (source_filenames : List Str)
    (add_page_breaks : Bool) (fs : FS) : MRes × FS × List LPath :=
  if !is_s3_uri (ensure_docx_extension target_filename) &&
      !w.writeable (ensure_docx_extension target_filename) then
    (.notWriteable (ensure_docx_extension target_filename), fs, [])
  else
    match resolveSources w source_filenames fs [] [] with
    | (.error r, fs1, temps) => (r, fs1, temps)
    | (.ok local_sources, fs1, temps) =>
      if is_s3_uri (ensure_docx_extension target_filename) then
        mergeSave w (ensure_docx_extension target_filename) local_sources
          add_page_breaks source_filenames.length true
          (mkstemp dotDocx fs1).1 ((mkstemp dotDocx fs1).2) (temps ++ [(mkstemp dotDocx fs1).1])
      else
        mergeSave w (ensure_docx_extension target_filename) local_sources
          add_page_breaks source_filenames.length false
          (LPath.real (ensure_docx_extension target_filename)) fs1 temps

/-- The `finally` block of `merge_documents` (document_tools.py:338-345):
unlink every collected temp file that still exists. -/
def cleanupTemps (temps : List LPath) (fs : FS) : FS :=
  temps.foldl (fun s t => unlinkL t s) fs

/-- `document_tools.merge_documents` (document_tools.py:238): the `try` body
followed unconditionally by temp-file cleanup. -/
def merge_documents (w : World) (target_filename : Str) (source_filenames : List Str)
    (add_page_breaks : Bool) (fs : FS) : MRes × FS :=
  ((mergeCore w target_filename source_filenames add_page_breaks fs).1,
   cleanupTemps (mergeCore w target_filename source_filenames add_page_breaks fs).2.2
     (mergeCore w target_filename source_filenames add_page_breaks fs).2.1)

/-! ### Claim C7 -/

theorem mergeLoop_false (docs : List Doc) : ∀ (i : Nat) (target : List Block),
    mergeLoop false i docs target = target ++ (docs.map contentBlocks).flatten := by
  induction docs with
  | nil =>
    intro i target
    simp [mergeLoop]
  | cons d rest ih =>
    intro i target
    rw [mergeLoop]
    simp only [Bool.false_and, Bool.false_eq_true, if_false, List.append_nil]
    rw [ih]
    simp [List.append_assoc]

theorem mergeLoop_true_pos (docs : List Doc) : ∀ (i : Nat) (target : List Block), 0 < i →
    mergeLoop true i docs target =
      target ++ (docs.map (fun d => Block.pageBreak :: contentBlocks d)).flatten := by
  induction docs with
  | nil =>
    intro i target hi
    simp [mergeLoop]
  | cons d rest ih =>
    intro i target hi
    rw [mergeLoop]
    rw [if_pos (by simp [hi])]
    rw [ih (i + 1) _ (by omega)]
    simp [List.append_assoc]

theorem buildMerged_true (d : Doc) (rest : List Doc) :
    buildMerged (d :: rest) true =
      contentBlocks d ++
        (rest.map (fun e => Block.pageBreak :: contentBlocks e)).flatten := by
  unfold buildMerged
  rw [mergeLoop]
  rw [if_neg (by simp)]
  rw [mergeLoop_true_pos rest 1 _ (by omega)]
  simp

theorem contentBlocks_no_pageBreak (d : Doc) :
    (contentBlocks d).countP isPageBreak = 0 := by
  rw [List.countP_eq_zero]
  intro b hb
  unfold contentBlocks at hb
  rcases List.mem_append.mp hb with hm | hm
  · obtain ⟨t, _, rfl⟩ := List.mem_map.mp hm
    simp [isPageBreak]
  · obtain ⟨t, _, rfl⟩ := List.mem_map.mp hm
    simp [isPageBreak]

theorem flatten_pageBreak_count (rest : List Doc) :
    ((rest.map (fun d => Block.pageBreak :: contentBlocks d)).flatten).countP isPageBreak
      = rest.length := by
  induction rest with
  | nil => rfl
  | cons d rest ih =>
    rw [List.map_cons, List.flatten_cons, List.countP_append, ih,
      List.countP_cons_of_pos _ _ (by simp [isPageBreak]), contentBlocks_no_pageBreak]
    simp only [List.length_cons]
    omega

/-- C7: a merge over N sources (N ≥ 2) with `add_page_breaks=true` builds the
first source's content followed by each later source's content each immediately
preceded by one page break (N−1 page breaks total, in source order); with
`add_page_breaks=false` no page break appears. -/
theorem C7_page_break_placement (docs : List Doc) (h : 2 ≤ docs.length) :
    buildMerged docs true = interleaveBreaks (docs.map contentBlocks) ∧
    (buildMerged docs true).countP isPageBreak = docs.length - 1 ∧
    buildMerged docs false = (docs.map contentBlocks).flatten ∧
    (buildMerged docs false).countP isPageBreak = 0 := by
  cases docs with
  | nil => simp at h
  | cons d rest =>
    refine ⟨?_, ?_, ?_, ?_⟩
    · rw [buildMerged_true, List.map_cons]
      rw [show interleaveBreaks (contentBlocks d :: List.map contentBlocks rest) =
            contentBlocks d ++ ((List.map contentBlocks rest).map
              (fun c => Block.pageBreak :: c)).flatten from rfl]
      rw [List.map_map]
      rfl
    · rw [buildMerged_true]
      rw [List.countP_append, contentBlocks_no_pageBreak, flatten_pageBreak_count]
      simp
    · unfold buildMerged
      rw [mergeLoop_false]
      simp
    · unfold buildMerged
      rw [mergeLoop_false]
      simp only [List.nil_append]
      rw [List.countP_eq_zero]
      intro b hb
      obtain ⟨l, hl, hbl⟩ := List.mem_flatten.mp hb
      obtain ⟨dd, _, rfl⟩ := List.mem_map.mp hl
      have hz := contentBlocks_no_pageBreak dd
      rw [List.countP_eq_zero] at hz
      exact hz b hbl

/-- The two-document source list used by the C7 witness. -/
def twoDocs : List Doc := [⟨["a".toList], []⟩, ⟨["b".toList], []⟩]

/-- Witness for C7: merging two one-paragraph documents inserts exactly one
page break, immediately before the second document's content. -/
theorem C7_page_break_placement_witness :
    buildMerged twoDocs true = interleaveBreaks (twoDocs.map contentBlocks) ∧
    (buildMerged twoDocs true).countP isPageBreak = 1 :=
  ⟨(C7_page_break_placement twoDocs (by decide)).1,
   (C7_page_break_placement twoDocs (by decide)).2.1⟩

/-! ### Claims C3 and C4 -/

def MRes.isUploadFail : MRes → Bool
  | .uploadFail _ => true
  | _ => false

theorem upload_fails_of_uploadOk_false (w : World) (lp : LPath) (u : Str) (fs : FS)
    (hup : w.uploadOk u = false) :
    (upload_to_s3 w lp u fs).1.1 = false := by
  unfold upload_to_s3
  cases hp : parse_s3_uri u with
  | error e => rfl
  | ok bk =>
    cases bk with
    | mk b k =>
      by_cases hex : existsL w fs lp = true
      · simp [hex, hup]
      · simp [hex]

theorem mergeUpload_uploadFail (r : (Bool × Str) × FS) (count : Nat) (target : Str)
    (temps : List LPath) (h : r.1.1 = false) :
    ((mergeUpload r count target temps).1).isUploadFail = true := by
  rcases r with ⟨⟨s, m⟩, fs3⟩
  cases s
  · rfl
  · simp at h

theorem mergeSave_not_resolveFailure (w : World) (target : Str) (ls : List LPath)
    (apb : Bool) (count : Nat) (tis : Bool) (lt : LPath) (fs : FS) (temps : List LPath) :
    ((mergeSave w target ls apb count tis lt fs temps).1).isResolveFailure = false := by
  unfold mergeSave
  cases tis
  · rfl
  · simp only [if_pos]
    rcases hu : upload_to_s3 w lt target
        (saveTo lt (buildMerged (ls.map w.docAt) apb) fs) with ⟨⟨s, m⟩, fs3⟩
    cases s
    · rfl
    · rfl

/-- C3: a clean non-read-only close with a remote output locator whose upload
fails raises (`__exit__` raises `IOError`); likewise `merge_documents` returns
its upload-failure message when the final upload of an S3 target fails. -/
theorem C3_upload_failure_surfaced :
    (∀ (w : World) (ctx : S3FileContext) (fs : FS) (u : Str) (olp : LPath),
      ctx.read_only = false →
      ctx.output_s3_uri = some u →
      u ≠ [] →
      ctx.output_local_path = some olp →
      existsL w fs olp = true →
      (upload_to_s3 w olp u fs).1.1 = false →
      isErr (S3FileContext.exit w ctx false fs).1 = true) ∧
    (∀ (w : World) (tgt : Str) (srcs : List Str) (apb : Bool) (fs : FS)
      (ls : List LPath) (fs1 : FS) (temps : List LPath),
      is_s3_uri (ensure_docx_extension tgt) = true →
      resolveSources w srcs fs [] [] = (.ok ls, fs1, temps) →
      w.uploadOk (ensure_docx_extension tgt) = false →
      ((merge_documents w tgt srcs apb fs).1).isUploadFail = true) := by
  constructor
  · intro w ctx fs u olp hro hu hune holp hex hfail
    unfold S3FileContext.exit exitTry
    rw [hu, holp, hro]
    have hne : u.isEmpty = false := by
      cases u with
      | nil => exact absurd rfl hune
      | cons a as => rfl
    simp only [Bool.not_false, Bool.and_self, if_true, hne, hex, Bool.and_true, if_pos]
    rcases hu2 : upload_to_s3 w olp u fs with ⟨⟨sb, m⟩, fs1⟩
    rw [hu2] at hfail
    simp at hfail
    rw [hfail]
    rfl
  · intro w tgt srcs apb fs ls fs1 temps hs3 hres hup
    have hcore : ((mergeCore w tgt srcs apb fs).1).isUploadFail = true := by
      unfold mergeCore
      rw [hs3, hres]
      simp only [Bool.not_true, Bool.false_and, Bool.false_eq_true, if_false, if_pos]
      unfold mergeSave
      simp only [if_pos]
      apply mergeUpload_uploadFail
      exact upload_fails_of_uploadOk_false w _ _ _ hup
    exact hcore

/-- Oracles where uploads fail and everything else succeeds. -/
def upFailWorld : World :=
  { downloadOk := fun _ => true
    uploadOk := fun _ => false
    localExists := fun _ => true
    writeable := fun _ => true
    docAt := fun _ => ⟨[], []⟩ }

/-- The context state of a session over `s3://b/doc.docx` after `__enter__`. -/
def ctxUpFail : S3FileContext :=
  { original_path := "s3://b/doc.docx".toList
    is_s3 := true
    read_only := false
    local_path := some (LPath.temp 1 dotDocx)
    temp_file := some (LPath.temp 0 dotDocx)
    output_temp_file := some (LPath.temp 1 dotDocx)
    output_local_path := some (LPath.temp 1 dotDocx)
    output_s3_uri := some "s3://b/doc_edited_7.docx".toList }

def fsUpFail : FS :=
  { nextTemp := 2
    live := [LPath.temp 0 dotDocx, LPath.temp 1 dotDocx]
    uploads := []
    saves := [] }

/-- Witness for C3: a concrete failed upload raises at close, and a concrete
merge with a failing target upload reports the upload failure. -/
theorem C3_upload_failure_surfaced_witness :
    isErr (S3FileContext.exit upFailWorld ctxUpFail false fsUpFail).1 = true ∧
    ((merge_documents upFailWorld "s3://b/t.docx".toList ["a.docx".toList] true
        FS.init).1).isUploadFail = true :=
  ⟨C3_upload_failure_surfaced.1 upFailWorld ctxUpFail fsUpFail
      "s3://b/doc_edited_7.docx".toList (LPath.temp 1 dotDocx)
      rfl rfl (by decide) rfl (by decide) (by decide),
   C3_upload_failure_surfaced.2 upFailWorld "s3://b/t.docx".toList ["a.docx".toList]
      true FS.init [LPath.real "a.docx".toList] FS.init [] (by decide) rfl rfl⟩

theorem resolveSources_uploads_saves (w : World) (srcs : List Str) :
    ∀ (fs : FS) (temps acc : List LPath),
      ((resolveSources w srcs fs temps acc).2.1).uploads = fs.uploads ∧
      ((resolveSources w srcs fs temps acc).2.1).saves = fs.saves := by
  induction srcs with
  | nil =>
    intro fs temps acc
    exact ⟨rfl, rfl⟩
  | cons fn rest ih =>
    intro fs temps acc
    unfold resolveSources
    split
    · split
      next lp fs1 heq =>
        have hd1 := download_uploads w (ensure_docx_extension fn) none fs
        have hd2 := download_saves w (ensure_docx_extension fn) none fs
        rw [heq] at hd1 hd2
        have hrec := ih fs1 (temps ++ [lp]) (acc ++ [lp])
        exact ⟨hrec.1.trans hd1, hrec.2.trans hd2⟩
      next fs1 heq =>
        have hd1 := download_uploads w (ensure_docx_extension fn) none fs
        have hd2 := download_saves w (ensure_docx_extension fn) none fs
        rw [heq] at hd1 hd2
        exact ⟨hd1, hd2⟩
      next m fs1 heq =>
        have hd1 := download_uploads w (ensure_docx_extension fn) none fs
        have hd2 := download_saves w (ensure_docx_extension fn) none fs
        rw [heq] at hd1 hd2
        exact ⟨hd1, hd2⟩
    · split
      · exact ih fs temps (acc ++ [LPath.real (ensure_docx_extension fn)])
      · exact ⟨rfl, rfl⟩

theorem cleanupTemps_uploads_saves (temps : List LPath) : ∀ (fs : FS),
    (cleanupTemps temps fs).uploads = fs.uploads ∧
    (cleanupTemps temps fs).saves = fs.saves := by
  induction temps with
  | nil =>
    intro fs
    exact ⟨rfl, rfl⟩
  | cons t ts ih =>
    intro fs
    have := ih (unlinkL t fs)
    exact this

theorem cleanupTemps_live_mem (temps : List LPath) : ∀ (fs : FS) (x : LPath),
    x ∈ (cleanupTemps temps fs).live → x ∈ fs.live ∧ x ∉ temps := by
  induction temps with
  | nil =>
    intro fs x h
    exact ⟨h, by simp⟩
  | cons t ts ih =>
    intro fs x h
    have h' := ih (unlinkL t fs) x h
    have hmem : x ∈ fs.live ∧ x ≠ t := by
      have hf := h'.1
      unfold unlinkL at hf
      simp only [List.mem_filter] at hf
      refine ⟨hf.1, ?_⟩
      have := hf.2
      simpa using this
    refine ⟨hmem.1, ?_⟩
    intro hcon
    rcases List.mem_cons.mp hcon with hc | hin
    · exact hmem.2 hc
    · exact h'.2 hin

theorem mergeCore_fail_state (w : World) (tgt : Str) (srcs : List Str) (apb : Bool)
    (fs : FS) (h : ((mergeCore w tgt srcs apb fs).1).isResolveFailure = true) :
    ((mergeCore w tgt srcs apb fs).2.1).uploads = fs.uploads ∧
    ((mergeCore w tgt srcs apb fs).2.1).saves = fs.saves := by
  unfold mergeCore at h ⊢
  by_cases hw : (!is_s3_uri (ensure_docx_extension tgt) &&
      !w.writeable (ensure_docx_extension tgt)) = true
  · rw [if_pos hw] at h
    simp [MRes.isResolveFailure] at h
  · rw [if_neg hw] at h ⊢
    rcases heq : resolveSources w srcs fs [] [] with ⟨res, fs1, temps⟩
    rw [heq] at h
    cases res with
    | error r =>
      have hpres := resolveSources_uploads_saves w srcs fs [] []
      rw [heq] at hpres
      exact hpres
    | ok ls =>
      exfalso
      have h' : ((if is_s3_uri (ensure_docx_extension tgt) = true then
            mergeSave w (ensure_docx_extension tgt) ls apb srcs.length true
              (mkstemp dotDocx fs1).1 (mkstemp dotDocx fs1).2
              (temps ++ [(mkstemp dotDocx fs1).1])
          else
            mergeSave w (ensure_docx_extension tgt) ls apb srcs.length false
              (LPath.real (ensure_docx_extension tgt)) fs1 temps).1).isResolveFailure
          = true := h
      by_cases hts : is_s3_uri (ensure_docx_extension tgt) = true
      · rw [if_pos hts, mergeSave_not_resolveFailure] at h'
        exact absurd h' (by simp)
      · rw [if_neg hts, mergeSave_not_resolveFailure] at h'
        exact absurd h' (by simp)

/-- C4: whenever `merge_documents` aborts because a source failed to resolve
(S3 download failure or missing local file), no upload and no document save has
happened — the target is never committed — and every temp file collected in
`temp_files` (the sources resolved so far) is released by the final cleanup. -/
theorem C4_merge_abort_on_resolution_failure (w : World) (tgt : Str) (srcs : List Str)
    (apb : Bool) (fs : FS)
    (h : ((mergeCore w tgt srcs apb fs).1).isResolveFailure = true) :
    ((merge_documents w tgt srcs apb fs).2).uploads = fs.uploads ∧
    ((merge_documents w tgt srcs apb fs).2).saves = fs.saves ∧
    ∀ t ∈ (mergeCore w tgt srcs apb fs).2.2,
      t ∉ ((merge_documents w tgt srcs apb fs).2).live := by
  have hclean := cleanupTemps_uploads_saves (mergeCore w tgt srcs apb fs).2.2
    (mergeCore w tgt srcs apb fs).2.1
  have hcore := mergeCore_fail_state w tgt srcs apb fs h
  refine ⟨?_, ?_, ?_⟩
  · exact hclean.1.trans hcore.1
  · exact hclean.2.trans hcore.2
  · intro t ht hcon
    exact (cleanupTemps_live_mem (mergeCore w tgt srcs apb fs).2.2
      (mergeCore w tgt srcs apb fs).2.1 t hcon).2 ht

/-- Oracles where only the object `s3://b/bad.docx` fails to download. -/
def secondDownFailWorld : World :=
  { downloadOk := fun s => s != "s3://b/bad.docx".toList
    uploadOk := fun _ => true
    localExists := fun _ => true
    writeable := fun _ => true
    docAt := fun _ => ⟨[], []⟩ }

/-- Witness for C4: merging `s3://b/a.docx` (downloads fine, temp 0) with
`s3://b/bad.docx` (download fails) aborts; nothing was uploaded or saved and
the first source's temp file is not left on disk. -/
theorem C4_merge_abort_on_resolution_failure_witness :
    ((merge_documents secondDownFailWorld "t.docx".toList
        ["s3://b/a.docx".toList, "s3://b/bad.docx".toList] true FS.init).2).uploads
      = FS.init.uploads ∧
    LPath.temp 0 dotDocx ∉
      ((merge_documents secondDownFailWorld "t.docx".toList
        ["s3://b/a.docx".toList, "s3://b/bad.docx".toList] true FS.init).2).live :=
  ⟨(C4_merge_abort_on_resolution_failure secondDownFailWorld "t.docx".toList
      ["s3://b/a.docx".toList, "s3://b/bad.docx".toList] true FS.init (by decide)).1,
   (C4_merge_abort_on_resolution_failure secondDownFailWorld "t.docx".toList
      ["s3://b/a.docx".toList, "s3://b/bad.docx".toList] true FS.init (by decide)).2.2
      (LPath.temp 0 dotDocx) (by decide)⟩

/-! ### Claim C9 -/

/-- C9 counterexample: for the unknown extension `.xyz` the code sends the Word
document MIME type — not a generic binary content type — so the claim's
"generic binary content type for any unknown extension" is false. -/
theorem C9_unknown_extension_counterexample :
    contentTypeFor "output.xyz".toList = docxContentType ∧
    docxContentType ≠ genericBinaryContentType := by
  constructor
  · rfl
  · decide

/-- C9 (amended): every PUT records the content type derived from the local
file name: `application/pdf` for names ending in `.pdf`, and the Word document
MIME type for every other name — including unknown extensions (there is no
generic-binary fallback). -/
theorem C9_upload_content_type (w : World) (lp : LPath) (u : Str) (fs : FS)
    (b k : Str) (hp : parse_s3_uri u = .ok (b, k)) (hex : existsL w fs lp = true) :
    ((upload_to_s3 w lp u fs).2).uploads =
      fs.uploads ++ [⟨b, k, contentTypeForL lp⟩] ∧
    (∀ p : Str, pyEndsWith p dotPdf = false → contentTypeFor p = docxContentType) ∧
    (∀ p : Str, pyEndsWith p dotPdf = true → contentTypeFor p = pdfContentType) := by
  refine ⟨?_, ?_, ?_⟩
  · unfold upload_to_s3
    rw [hp]
    simp only [hex, Bool.not_true, Bool.false_eq_true, if_false]
    by_cases hup : w.uploadOk u = true
    · simp [hup]
    · simp [hup]
  · intro p hep
    unfold contentTypeFor
    rw [hep]
    rfl
  · intro p hep
    unfold contentTypeFor
    rw [hep]
    rfl

/-- Witness for C9: a concrete PUT of a `.docx` working file. -/
theorem C9_upload_content_type_witness :
    ((upload_to_s3 allOkWorld (LPath.real "doc.docx".toList) "s3://b/k.docx".toList
        FS.init).2).uploads =
      FS.init.uploads ++
        [⟨"b".toList, "k.docx".toList, contentTypeForL (LPath.real "doc.docx".toList)⟩] :=
  (C9_upload_content_type allOkWorld (LPath.real "doc.docx".toList)
    "s3://b/k.docx".toList FS.init "b".toList "k.docx".toList rfl rfl).1

/-! ### Claim C2 — supporting lemmas -/

/-- `_edited_<now>`, the text `_generate_versioned_path` inserts. -/
def editedStamp (now : Nat) : Str := editedMarker ++ natChars now

/-- The spec's versioned key: the original key with `_edited_<timestamp>`
inserted before the key's extension. -/
def versionKey (key : Str) (now : Nat) : Str :=
  (splitext key).1 ++ editedStamp now ++ (splitext key).2

/-- Stamp insertion before the extension of a slash-free final component. -/
def insertEdited (c : Str) (now : Nat) : Str :=
  (splitextLast c).1 ++ editedStamp now ++ (splitextLast c).2

theorem upload_uploads_cases (w : World) (lp : LPath) (u : Str) (fs : FS) :
    ((upload_to_s3 w lp u fs).2).uploads = fs.uploads ∨
    (∃ bb kk, parse_s3_uri u = .ok (bb, kk) ∧
      ((upload_to_s3 w lp u fs).2).uploads
        = fs.uploads ++ [⟨bb, kk, contentTypeForL lp⟩]) := by
  unfold upload_to_s3
  cases hp : parse_s3_uri u with
  | error e => exact Or.inl rfl
  | ok bk =>
    rcases bk with ⟨bb, kk⟩
    by_cases hex : existsL w fs lp = true
    · simp only [hex, Bool.not_true, Bool.false_eq_true, if_false]
      by_cases hup : w.uploadOk u = true
      · right
        exact ⟨bb, kk, rfl, by simp [hup]⟩
      · right
        exact ⟨bb, kk, rfl, by simp [hup]⟩
    · left
      simp [hex]

theorem uploadStep_snd (r : (Bool × Str) × FS) : (uploadStep r).2 = r.2 := by
  rcases r with ⟨⟨s, m⟩, fs1⟩
  cases s
  · rfl
  · rfl

theorem exitTry_uploads_cases (w : World) (ctx : S3FileContext) (exc : Bool) (fs : FS) :
    ((exitTry w ctx exc fs).2).uploads = fs.uploads ∨
    (∃ u olp bb kk, ctx.output_s3_uri = some u ∧ parse_s3_uri u = .ok (bb, kk) ∧
      ((exitTry w ctx exc fs).2).uploads = fs.uploads ++ [⟨bb, kk, contentTypeForL olp⟩]) := by
  unfold exitTry
  split
  · split
    next hu holp =>
      rename_i u olp
      split
      · rw [uploadStep_snd]
        rcases upload_uploads_cases w olp u fs with hl | ⟨bb, kk, hpk, hr⟩
        · exact Or.inl hl
        · exact Or.inr ⟨u, olp, bb, kk, hu, hpk, hr⟩
      · exact Or.inl rfl
    next h1 h2 => exact Or.inl rfl
  · exact Or.inl rfl

theorem exit_uploads_cases (w : World) (ctx : S3FileContext) (exc : Bool) (fs : FS) :
    ((S3FileContext.exit w ctx exc fs).2).uploads = fs.uploads ∨
    (∃ u olp bb kk, ctx.output_s3_uri = some u ∧ parse_s3_uri u = .ok (bb, kk) ∧
      ((S3FileContext.exit w ctx exc fs).2).uploads
        = fs.uploads ++ [⟨bb, kk, contentTypeForL olp⟩]) := by
  unfold S3FileContext.exit
  rcases exitTry_uploads_cases w ctx exc fs with hl | ⟨u, olp, bb, kk, hu, hpk, hr⟩
  · left
    rw [exitCleanup_uploads]
    exact hl
  · right
    refine ⟨u, olp, bb, kk, hu, hpk, ?_⟩
    rw [exitCleanup_uploads]
    exact hr

theorem runSession_uploads_cases (w : World) (f : Str) (ro : Bool) (outUri : Option Str)
    (now : Nat) (bf : Bool) (fs : FS) :
    ((runSession w f ro outUri now bf fs).2).uploads = fs.uploads ∨
    (∃ u olp bb kk,
      (S3FileContext.init f ro outUri now).output_s3_uri = some u ∧
      parse_s3_uri u = .ok (bb, kk) ∧
      ((runSession w f ro outUri now bf fs).2).uploads
        = fs.uploads ++ [⟨bb, kk, contentTypeForL olp⟩]) := by
  unfold runSession
  split
  next e fs1 heq =>
    left
    have h1 := enter_uploads w (S3FileContext.init f ro outUri now) fs
    rw [heq] at h1
    exact h1
  next ctx1 fs1 heq =>
    have h1 := enter_uploads w (S3FileContext.init f ro outUri now) fs
    rw [heq] at h1
    have huout : ctx1.output_s3_uri = (S3FileContext.init f ro outUri now).output_s3_uri :=
      (enter_ok_fields heq).2.1
    split
    next uu fs2 heq2 =>
      rcases exit_uploads_cases w ctx1 bf fs1 with hl | ⟨u, olp, bb, kk, hu, hpk, hr⟩
      · left
        rw [heq2] at hl
        cases bf
        · exact hl.trans h1
        · exact hl.trans h1
      · right
        rw [heq2] at hr
        rw [huout] at hu
        refine ⟨u, olp, bb, kk, hu, hpk, ?_⟩
        rw [h1] at hr
        cases bf
        · exact hr
        · exact hr
    next e fs2 heq2 =>
      rcases exit_uploads_cases w ctx1 bf fs1 with hl | ⟨u, olp, bb, kk, hu, hpk, hr⟩
      · left
        rw [heq2] at hl
        exact hl.trans h1
      · right
        rw [heq2] at hr
        rw [huout] at hu
        rw [h1] at hr
        exact ⟨u, olp, bb, kk, hu, hpk, hr⟩

theorem editedStamp_clean (now : Nat) : ∀ c ∈ editedStamp now,
    c ≠ '/' ∧ c ≠ '?' ∧ c ≠ '#' ∧ c ≠ '\t' ∧ c ≠ '\r' ∧ c ≠ '\n' := by
  intro c hc
  unfold editedStamp at hc
  rcases List.mem_append.mp hc with hm | hm
  · have hall : ∀ x ∈ editedMarker,
        x ≠ '/' ∧ x ≠ '?' ∧ x ≠ '#' ∧ x ≠ '\t' ∧ x ≠ '\r' ∧ x ≠ '\n' := by decide
    exact hall c hm
  · obtain ⟨d, rfl⟩ := mem_natChars hm
    exact digitChar_not_special d

theorem editedStamp_length (now : Nat) : 8 ≤ (editedStamp now).length := by
  unfold editedStamp editedMarker
  rw [List.length_append]
  have hm : ("_edited_".toList).length = 8 := rfl
  omega

theorem versionKey_length (k : Str) (now : Nat) :
    (versionKey k now).length = k.length + (editedStamp now).length := by
  unfold versionKey
  rw [List.length_append, List.length_append]
  have hj := congrArg List.length (splitext_join k)
  rw [List.length_append] at hj
  omega

theorem versionKey_ne (k : Str) (now : Nat) : versionKey k now ≠ k := by
  intro hcon
  have h1 := versionKey_length k now
  rw [hcon] at h1
  have h2 := editedStamp_length now
  omega

theorem generate_versioned_path_length (f : Str) (now : Nat) :
    (generate_versioned_path f now).length = f.length + (editedStamp now).length := by
  unfold generate_versioned_path editedStamp
  rw [List.length_append, List.length_append, List.length_append]
  have hj := congrArg List.length (splitext_join f)
  rw [List.length_append] at hj
  rw [List.length_append]
  omega

theorem generate_versioned_path_ne (f : Str) (now : Nat) :
    generate_versioned_path f now ≠ f := by
  intro hcon
  have h1 := generate_versioned_path_length f now
  rw [hcon] at h1
  have h2 := editedStamp_length now
  omega

theorem generate_versioned_path_ne_nil (f : Str) (now : Nat) :
    generate_versioned_path f now ≠ [] := by
  intro hcon
  have h1 := generate_versioned_path_length f now
  rw [hcon] at h1
  have h2 := editedStamp_length now
  simp at h1
  omega

theorem splitextLast_fst_subset {C : Str} {c : Char} (hc : c ∈ (splitextLast C).1) :
    c ∈ C := by
  unfold splitextLast at hc
  split at hc
  · exact List.take_subset _ _ hc
  · exact hc

theorem splitextLast_snd_subset {C : Str} {c : Char} (hc : c ∈ (splitextLast C).2) :
    c ∈ C := by
  unfold splitextLast at hc
  split at hc
  · exact List.drop_subset _ _ hc
  · simp at hc

theorem insertEdited_mem {C : Str} {now : Nat} {c : Char}
    (hc : c ∈ insertEdited C now) :
    c ∈ C ∨ (c ≠ '/' ∧ c ≠ '?' ∧ c ≠ '#' ∧ c ≠ '\t' ∧ c ≠ '\r' ∧ c ≠ '\n') := by
  unfold insertEdited at hc
  rcases List.mem_append.mp hc with hm | hm
  · rcases List.mem_append.mp hm with hm2 | hm2
    · exact Or.inl (splitextLast_fst_subset hm2)
    · exact Or.inr (editedStamp_clean now c hm2)
  · exact Or.inl (splitextLast_snd_subset hm)

theorem insertEdited_head {C : Str} (now : Nat) (hC : '/' ∉ C) :
    ∃ x xs, insertEdited C now = x :: xs ∧ (x == '/') = false := by
  cases hc1 : (splitextLast C).1 with
  | nil =>
    refine ⟨'_', ("edited_".toList ++ natChars now) ++ (splitextLast C).2, ?_, by decide⟩
    unfold insertEdited
    rw [hc1]
    rfl
  | cons x xs =>
    have hx : x ∈ C := splitextLast_fst_subset (by rw [hc1]; simp)
    refine ⟨x, xs ++ editedStamp now ++ (splitextLast C).2, ?_, ?_⟩
    · unfold insertEdited
      rw [hc1]
      rfl
    · have hne : x ≠ '/' := fun hcon => hC (hcon ▸ hx)
      simpa using hne

theorem key_insert (now : Nat) (C : Str) (hC : '/' ∉ C) : ∀ (W : Str),
    (W ++ '/' :: insertEdited C now).dropWhile (fun c => c == '/')
      = versionKey ((W ++ '/' :: C).dropWhile (fun c => c == '/')) now := by
  have hdropSlash : ∀ (l : Str), List.dropWhile (fun c => c == '/') ('/' :: l)
      = List.dropWhile (fun c => c == '/') l := by
    intro l
    rw [List.dropWhile_cons]
    simp
  intro W
  induction W with
  | nil =>
    rw [List.nil_append, List.nil_append, hdropSlash, hdropSlash]
    obtain ⟨x, xs, hxe, hxne⟩ := insertEdited_head now hC
    have hdropIns : List.dropWhile (fun c => c == '/') (insertEdited C now)
        = insertEdited C now := by
      rw [hxe, List.dropWhile_cons]
      simp [hxne]
    rw [hdropIns]
    cases C with
    | nil =>
      have h1 : insertEdited [] now = editedStamp now := by
        unfold insertEdited
        rw [show splitextLast [] = ([], []) from rfl]
        simp
      have h2 : versionKey [] now = editedStamp now := by
        unfold versionKey
        rw [show splitext [] = ([], []) from rfl]
        simp
      rw [show List.dropWhile (fun c => c == '/') ([] : Str) = [] from rfl, h1, h2]
    | cons c0 cs =>
      have hc0 : c0 ≠ '/' := fun hcon => hC (by simp [hcon])
      rw [List.dropWhile_cons]
      rw [if_neg (by simpa using hc0)]
      unfold insertEdited versionKey
      rw [splitext_no_slash _ hC]
  | cons wc W ih =>
    by_cases hwc : (wc == '/') = true
    · have hred : ∀ (l : Str), List.dropWhile (fun c => c == '/') (wc :: l)
          = List.dropWhile (fun c => c == '/') l := by
        intro l
        rw [List.dropWhile_cons]
        simp [hwc]
      simp only [List.cons_append]
      rw [hred, hred]
      exact ih
    · have hred : ∀ (l : Str), List.dropWhile (fun c => c == '/') (wc :: l) = wc :: l := by
        intro l
        rw [List.dropWhile_cons]
        simp [hwc]
      simp only [List.cons_append]
      rw [hred, hred]
      unfold versionKey
      rw [show wc :: (W ++ '/' :: C) = (wc :: W) ++ '/' :: C by simp]
      rw [splitext_append_last (wc :: W) C hC]
      unfold insertEdited
      simp [List.append_assoc]

theorem drop_len_append (a b : Str) : (a ++ b).drop a.length = b := by
  induction a with
  | nil => rfl
  | cons x xs ih => simpa using ih

theorem drop5_s3Scheme (x : Str) : (s3Scheme ++ x).drop 5 = x :=
  drop_len_append s3Scheme x

/-- C2 (amended: for addresses free of `'?'`, `'#'` and the control characters
tab/CR/LF that URL parsing strips): a remote source opened read-write with no
explicit output gets `_edited_<timestamp>` inserted before the extension — the
result path differs from the original address, parses to the same bucket with
the versioned key (same directory prefix, suffix before the key's extension),
that key differs from the original key, every upload the session performs
targets exactly that bucket and versioned key, and the session reports the
versioned address. -/
theorem C2_remote_readwrite_versioned_output (w : World) (f : Str) (now : Nat)
    (b k : Str) (fs : FS)
    (hs3 : is_s3_uri f = true)
    (hp : parse_s3_uri f = .ok (b, k))
    (hcl : ∀ c ∈ f, c ≠ '?' ∧ c ≠ '#' ∧ c ≠ '\t' ∧ c ≠ '\r' ∧ c ≠ '\n') :
    (S3FileContext.init f false none now).output_s3_uri
        = some (generate_versioned_path f now) ∧
    S3FileContext.get_result_path (S3FileContext.init f false none now)
        = generate_versioned_path f now ∧
    generate_versioned_path f now ≠ f ∧
    parse_s3_uri (generate_versioned_path f now) = .ok (b, versionKey k now) ∧
    versionKey k now ≠ k ∧
    (∀ (bodyFails : Bool) (up : UploadEvent),
      up ∈ ((runSession w f false none now bodyFails fs).2).uploads →
      up ∈ fs.uploads ∨ (up.bucket = b ∧ up.key = versionKey k now)) ∧
    (∀ (ctx1 : S3FileContext) (fs1 : FS),
      runSession w f false none now false fs = (.ok ctx1, fs1) →
      S3FileContext.get_result_path ctx1 = generate_versioned_path f now) := by
  -- invert the parse of f
  obtain ⟨-, hbm, hbh, hbk1, hbk2, hnbe0, hnke0⟩ := parse_s3_uri_ok_inv hp
  have hnb : ¬ (urlNetloc f).isEmpty = true := by simp [hnbe0]
  have hnk : ¬ (s3KeyOf f).isEmpty = true := by simp [hnke0]
  have hbk : urlNetloc f = b ∧ s3KeyOf f = k := ⟨hbk1, hbk2⟩
  -- structural decomposition of f
  have hrm : removeUnsafe f = f := by
    unfold removeUnsafe
    rw [List.filter_eq_self]
    intro c hcmem
    obtain ⟨_, _, h3, h4, h5⟩ := hcl c hcmem
    simp [h3, h4, h5]
  obtain ⟨rest, hrest⟩ :=
    isPrefixOf_exists_append (show s3Scheme.isPrefixOf f = true from hs3)
  have hdrop5 : (removeUnsafe f).drop 5 = rest := by
    rw [hrm, hrest]
    exact drop_len_append s3Scheme rest
  have hrsub : ∀ c ∈ rest, c ∈ f := by
    intro c hcm
    rw [hrest]
    exact List.mem_append_right _ hcm
  obtain ⟨nl, hnldef⟩ : ∃ x, rest.takeWhile notDelim = x := ⟨_, rfl⟩
  obtain ⟨pr, hprdef⟩ : ∃ x, rest.dropWhile notDelim = x := ⟨_, rfl⟩
  have hsplit : nl ++ pr = rest := by
    rw [← hnldef, ← hprdef]
    exact List.takeWhile_append_dropWhile notDelim rest
  have hnlmem : ∀ c ∈ nl, notDelim c = true := by
    intro c hcm
    rw [← hnldef] at hcm
    exact takeWhile_sat hcm
  have hnlmemf : ∀ c ∈ nl, c ∈ f := by
    intro c hcm
    apply hrsub
    rw [← hsplit]
    exact List.mem_append_left _ hcm
  have hprsubf : ∀ c ∈ pr, c ∈ f := by
    intro c hcm
    apply hrsub
    rw [← hprdef] at hcm
    exact mem_of_mem_dropWhile hcm
  have hnlf : urlNetloc f = nl := by
    unfold urlNetloc
    rw [hdrop5, hnldef]
  have hpathf : urlPath f = pr := by
    unfold urlPath
    rw [hdrop5, hprdef]
    apply takeWhile_eq_self_of_sat
    intro c hcm
    obtain ⟨h1, h2, _, _, _⟩ := hcl c (hprsubf c hcm)
    simp [notFragQ, h1, h2]
  have hkeyfpr : s3KeyOf f = pr.dropWhile (fun c => c == '/') := by
    unfold s3KeyOf
    rw [hpathf]
  have hkne : s3KeyOf f ≠ [] := by
    intro hcon
    exact hnk (by rw [hcon]; rfl)
  have hprne : pr ≠ [] := by
    intro hcon
    apply hkne
    rw [hkeyfpr, hcon]
    rfl
  obtain ⟨p0, pr2, hprcons⟩ : ∃ p0 pr2, pr = p0 :: pr2 := by
    cases hc : pr with
    | nil => exact absurd hc hprne
    | cons a l => exact ⟨a, l, rfl⟩
  have hp0 : p0 = '/' := by
    have hdw : rest.dropWhile notDelim = p0 :: pr2 := by
      rw [hprdef, hprcons]
    have hnd : notDelim p0 = false := head_dropWhile_false hdw
    have hmem : p0 ∈ f := hprsubf p0 (by rw [hprcons]; simp)
    obtain ⟨hq, hh, _, _, _⟩ := hcl p0 hmem
    unfold notDelim at hnd
    simp [hq, hh] at hnd
    exact hnd
  subst hp0
  have hslash_pr : '/' ∈ pr := by
    rw [hprcons]
    simp
  obtain ⟨P, C, hPC, hCnos⟩ := exists_last_occurrence hslash_pr
  have hfA : f = s3Scheme ++ nl ++ P ++ '/' :: C := by
    rw [hrest, ← hsplit, hPC]
    simp [List.append_assoc]
  have hsf := splitext_append_last (s3Scheme ++ nl ++ P) C hCnos
  rw [← hfA] at hsf
  have hv : generate_versioned_path f now
      = s3Scheme ++ nl ++ (P ++ '/' :: insertEdited C now) := by
    unfold generate_versioned_path
    rw [hsf]
    unfold insertEdited editedStamp
    simp [List.append_assoc]
  have hassocv : s3Scheme ++ nl ++ (P ++ '/' :: insertEdited C now)
      = s3Scheme ++ (nl ++ (P ++ '/' :: insertEdited C now)) := by
    simp [List.append_assoc]
  have hs3v : is_s3_uri (generate_versioned_path f now) = true := by
    rw [hv, hassocv]
    exact append_isPrefixOf _ _
  have hrmv : removeUnsafe (generate_versioned_path f now)
      = generate_versioned_path f now := by
    unfold removeUnsafe
    rw [List.filter_eq_self]
    intro c hcm
    rw [hv] at hcm
    have hcf : c ∈ f ∨ (c ≠ '\t' ∧ c ≠ '\r' ∧ c ≠ '\n') := by
      rcases List.mem_append.mp hcm with hm | hm
      · rcases List.mem_append.mp hm with hm2 | hm2
        · right
          have hsch : ∀ x ∈ s3Scheme, x ≠ '\t' ∧ x ≠ '\r' ∧ x ≠ '\n' := by decide
          exact hsch c hm2
        · left
          exact hnlmemf c hm2
      · rcases List.mem_append.mp hm with hm2 | hm2
        · left
          apply hprsubf
          rw [hPC]
          exact List.mem_append_left _ hm2
        · rcases List.mem_cons.mp hm2 with hc | hc
          · right
            rw [hc]
            exact ⟨by decide, by decide, by decide⟩
          · rcases insertEdited_mem hc with hcc | hcc
            · left
              apply hprsubf
              rw [hPC]
              exact List.mem_append_right _ (List.mem_cons_of_mem _ hcc)
            · right
              exact ⟨hcc.2.2.2.1, hcc.2.2.2.2⟩
    rcases hcf with hm | hm
    · obtain ⟨_, _, h3, h4, h5⟩ := hcl c hm
      simp [h3, h4, h5]
    · simp [hm.1, hm.2.1, hm.2.2]
  have hYhead : ∃ y ys, P ++ '/' :: insertEdited C now = y :: ys ∧ notDelim y = false := by
    cases P with
    | nil => exact ⟨'/', insertEdited C now, rfl, by decide⟩
    | cons q Q =>
      have hq : q = '/' := by
        have h1 : pr = q :: (Q ++ '/' :: C) := by
          rw [hPC]
          rfl
        rw [hprcons] at h1
        injection h1 with h1a h1b
        exact h1a.symm
      refine ⟨q, Q ++ '/' :: insertEdited C now, rfl, ?_⟩
      rw [hq]
      decide
  have hnetv : urlNetloc (generate_versioned_path f now) = nl := by
    unfold urlNetloc
    rw [hrmv, hv, hassocv, drop5_s3Scheme]
    obtain ⟨y, ys, hy, hyn⟩ := hYhead
    rw [hy]
    rw [List.takeWhile_append_of_pos hnlmem]
    have hstop : List.takeWhile notDelim (y :: ys) = [] := by
      rw [List.takeWhile_cons]
      simp [hyn]
    rw [hstop]
    simp
  have hpathv : urlPath (generate_versioned_path f now)
      = P ++ '/' :: insertEdited C now := by
    unfold urlPath
    rw [hrmv, hv, hassocv, drop5_s3Scheme]
    rw [List.dropWhile_append_of_pos hnlmem]
    obtain ⟨y, ys, hy, hyn⟩ := hYhead
    have hstop : List.dropWhile notDelim (y :: ys) = y :: ys := by
      rw [List.dropWhile_cons]
      simp [hyn]
    rw [hy, hstop, ← hy]
    apply takeWhile_eq_self_of_sat
    intro c hcm
    have hcP : c ∈ f ∨ (c ≠ '?' ∧ c ≠ '#') := by
      rcases List.mem_append.mp hcm with hm | hm
      · left
        apply hprsubf
        rw [hPC]
        exact List.mem_append_left _ hm
      · rcases List.mem_cons.mp hm with hc | hc
        · right
          rw [hc]
          exact ⟨by decide, by decide⟩
        · rcases insertEdited_mem hc with hcc | hcc
          · left
            apply hprsubf
            rw [hPC]
            exact List.mem_append_right _ (List.mem_cons_of_mem _ hcc)
          · right
            exact ⟨hcc.2.1, hcc.2.2.1⟩
    rcases hcP with hm | hm
    · obtain ⟨h1, h2, _, _, _⟩ := hcl c hm
      simp [notFragQ, h1, h2]
    · simp [notFragQ, hm.1, hm.2]
  have hkprk : pr.dropWhile (fun c => c == '/') = k := by
    rw [← hkeyfpr]
    exact hbk.2
  have hkeyv : s3KeyOf (generate_versioned_path f now) = versionKey k now := by
    unfold s3KeyOf
    rw [hpathv]
    rw [key_insert now C hCnos P]
    rw [← hPC, hkprk]
  have hnlb : nl = b := by
    rw [← hnlf]
    exact hbk.1
  have hnbe : nl.isEmpty = false := by
    have hx := hnb
    rw [hnlf] at hx
    simpa using hx
  have hvke : (versionKey k now).isEmpty = false := by
    cases hvk : versionKey k now with
    | nil =>
      exfalso
      have hl := versionKey_length k now
      rw [hvk] at hl
      have h8 := editedStamp_length now
      simp at hl
      omega
    | cons a l => rfl
  have hbnn : ¬ b = [] := by
    rw [← hnlb]
    intro hcon
    rw [hcon] at hnbe
    simp at hnbe
  have hvknn : ¬ versionKey k now = [] := by
    intro hcon
    rw [hcon] at hvke
    simp at hvke
  have hbmnl : bracketMismatch nl = false := by
    rw [← hnlf]
    exact hbm
  have hbhnl : bracketHostBad nl = false := by
    rw [← hnlf]
    exact hbh
  have hparsev : parse_s3_uri (generate_versioned_path f now)
      = .ok (b, versionKey k now) := by
    unfold parse_s3_uri
    rw [if_neg (by simp [hs3v]), hnetv, if_neg (by simp [hbmnl]),
        if_neg (by simp [hbhnl]), if_neg (by simp [hnbe]),
        hkeyv, if_neg (by simp [hvke]), hnlb]
  have hout : (S3FileContext.init f false none now).output_s3_uri
      = some (generate_versioned_path f now) := by
    simp [S3FileContext.init, truthyOpt, hs3]
  have hvnee : (generate_versioned_path f now).isEmpty = false := by
    cases hvk : generate_versioned_path f now with
    | nil => exact absurd hvk (generate_versioned_path_ne_nil f now)
    | cons a l => rfl
  have hgrp : ∀ ctx : S3FileContext,
      ctx.output_s3_uri = some (generate_versioned_path f now) →
      S3FileContext.get_result_path ctx = generate_versioned_path f now := by
    intro ctx hc
    unfold S3FileContext.get_result_path
    rw [hc]
    simp [truthyOpt, hvnee]
  refine ⟨hout, hgrp _ hout, generate_versioned_path_ne f now, hparsev,
    versionKey_ne k now, ?_, ?_⟩
  · intro bodyFails up hup
    rcases runSession_uploads_cases w f false none now bodyFails fs with
      hl | ⟨u, olp, bb, kk, hu, hpk, hr⟩
    · rw [hl] at hup
      exact Or.inl hup
    · rw [hout] at hu
      injection hu with hu1
      rw [← hu1] at hpk
      have hok := hpk.symm.trans hparsev
      injection hok with hok1
      injection hok1 with hb1 hk1
      rw [hr] at hup
      rcases List.mem_append.mp hup with hm | hm
      · exact Or.inl hm
      · right
        have hup2 : up = ⟨bb, kk, contentTypeForL olp⟩ := by simpa using hm
        rw [hup2]
        exact ⟨hb1, hk1⟩
  · intro ctx1 fs1 hrs
    unfold runSession at hrs
    rcases henter : S3FileContext.enter w (S3FileContext.init f false none now) fs
      with ⟨er, fsE⟩
    rw [henter] at hrs
    cases er with
    | error e =>
      have hrs2 : ((Except.error e : Except Str S3FileContext), fsE)
          = (Except.ok ctx1, fs1) := hrs
      simp at hrs2
    | ok ctxE =>
      have hrs2 : (match S3FileContext.exit w ctxE false fsE with
          | (Except.ok _, fs2) =>
            if false = true then ((Except.error "body raised".toList :
                Except Str S3FileContext), fs2)
            else (Except.ok ctxE, fs2)
          | (Except.error e, fs2) => (Except.error e, fs2)) = (Except.ok ctx1, fs1) := hrs
      rcases hexit : S3FileContext.exit w ctxE false fsE with ⟨xr, fsX⟩
      rw [hexit] at hrs2
      cases xr with
      | ok uu =>
        have hrs3 : (if false = true then ((Except.error "body raised".toList :
              Except Str S3FileContext), fsX)
            else (Except.ok ctxE, fsX)) = (Except.ok ctx1, fs1) := hrs2
        simp at hrs3
        obtain ⟨hctx, hfs⟩ := hrs3
        apply hgrp
        rw [← hctx]
        have hfields := enter_ok_fields henter
        rw [hfields.2.1]
        exact hout
      | error e =>
        have hrs3 : ((Except.error e : Except Str S3FileContext), fsX)
            = (Except.ok ctx1, fs1) := hrs2
        simp at hrs3

/-- Witness for the amended C2 at `s3://bucket/docs/report.docx`, timestamp 42. -/
theorem C2_remote_readwrite_versioned_output_witness :
    S3FileContext.get_result_path
        (S3FileContext.init "s3://bucket/docs/report.docx".toList false none 42)
      = generate_versioned_path "s3://bucket/docs/report.docx".toList 42 ∧
    generate_versioned_path "s3://bucket/docs/report.docx".toList 42
      ≠ "s3://bucket/docs/report.docx".toList ∧
    parse_s3_uri (generate_versioned_path "s3://bucket/docs/report.docx".toList 42)
      = .ok ("bucket".toList, versionKey "docs/report.docx".toList 42) :=
  ⟨(C2_remote_readwrite_versioned_output allOkWorld
      "s3://bucket/docs/report.docx".toList 42 "bucket".toList "docs/report.docx".toList
      FS.init (by decide) rfl (by decide)).2.1,
   (C2_remote_readwrite_versioned_output allOkWorld
      "s3://bucket/docs/report.docx".toList 42 "bucket".toList "docs/report.docx".toList
      FS.init (by decide) rfl (by decide)).2.2.1,
   (C2_remote_readwrite_versioned_output allOkWorld
      "s3://bucket/docs/report.docx".toList 42 "bucket".toList "docs/report.docx".toList
      FS.init (by decide) rfl (by decide)).2.2.2.1⟩

set_option maxRecDepth 10000 in
/-- C2 counterexample: for the remote address `s3://b/doc.docx?v=1.2` (whose
query string contains a dot), the session's "versioned" output address parses
to the SAME bucket and key as the original — the upload at close targets the
original object `doc.docx`, and the result key is not the original key with
`_edited_<ts>` inserted (that would be `doc_edited_5.docx`). -/
theorem C2_versioned_output_counterexample :
    parse_s3_uri "s3://b/doc.docx?v=1.2".toList
      = .ok ("b".toList, "doc.docx".toList) ∧
    (S3FileContext.init "s3://b/doc.docx?v=1.2".toList false none 5).output_s3_uri
      = some "s3://b/doc.docx?v=1_edited_5.2".toList ∧
    parse_s3_uri "s3://b/doc.docx?v=1_edited_5.2".toList
      = .ok ("b".toList, "doc.docx".toList) ∧
    ((runSession allOkWorld "s3://b/doc.docx?v=1.2".toList false none 5 false
        FS.init).2).uploads
      = [⟨"b".toList, "doc.docx".toList, docxContentType⟩] ∧
    versionKey "doc.docx".toList 5 ≠ "doc.docx".toList := by
  have hn : natChars 5 = ['5'] := by rw [natChars]; decide
  have hg : generate_versioned_path "s3://b/doc.docx?v=1.2".toList 5
      = "s3://b/doc.docx?v=1_edited_5.2".toList := by
    simp only [generate_versioned_path, editedMarker, hn]
    decide
  have hstep : S3FileContext.init "s3://b/doc.docx?v=1.2".toList false none 5
      = { original_path := "s3://b/doc.docx?v=1.2".toList, is_s3 := true,
          read_only := false, local_path := none, temp_file := none,
          output_temp_file := none, output_local_path := none,
          output_s3_uri :=
            some (generate_versioned_path "s3://b/doc.docx?v=1.2".toList 5) } := rfl
  refine ⟨rfl, ?_, rfl, ?_, versionKey_ne "doc.docx".toList 5⟩
  · rw [hstep, hg]
  · simp only [runSession, hstep, hg]
    decide
